import Mathlib

/-!
Verification of the spreadsheet-backed persistence layer of the personal
finance tracker (src/db.py) against its natural-language specification.

Shallow embedding conventions:
- A worksheet is a list of typed rows (the row-set obtained after the
  read normalization of db.py's _ws_to_df, which strips fully-blank rows).
- A numeric-ish sheet cell (id, amount, paid, n, done, tx_id, valor,
  prioridade, quitada) is a Cell: either a decimal rendering of a rational
  (Cell.num q; Python floats are idealized as exact rationals), an empty
  cell (Cell.blank), or an unparseable non-numeric string (Cell.junk s).
  pd.to_numeric(errors := coerce) maps Cell.num q to q and everything
  else to NaN; .fillna(d) then substitutes the default d.
- Text cells (date, description, category, credor, vencimento, ...) are
  plain Strings; the empty string stands for an empty cell, which pandas
  reads as NaN and .astype(str) renders as the string "nan" (readStr).
- Python str.strip / str.lower / lexicographic string comparison and
  int() truncation are re-implemented structurally (pyStrip, pyLower,
  clt, pyTrunc) so that all definitions evaluate by kernel reduction.
- pandas sort_values is modeled by an insertion sort (pySort) using the
  comparator induced by the sort keys; no claim depends on the order of
  rows with fully equal sort keys.
- datetime.utcnow() is passed in explicitly as a string argument (now).
-/

namespace Financas

/-- Python str.strip on a list of characters: drop leading and trailing
whitespace. -/
def pyStripL (l : List Char) : List Char :=
  ((l.dropWhile Char.isWhitespace).reverse.dropWhile Char.isWhitespace).reverse

/-- Python str.strip. -/
def pyStrip (s : String) : String := ⟨pyStripL s.data⟩

/-- Python str.lower (per-character lowercasing). -/
def pyLower (s : String) : String := ⟨s.data.map Char.toLower⟩

/-- Reading a text column through astype(str): an empty cell is NaN in the
dataframe and astype(str) renders it as the literal string "nan". -/
def readStr (s : String) : String := if s = "" then "nan" else s

/-- Strict lexicographic comparison of character lists by code point,
matching Python string comparison. -/
def clt : List Char → List Char → Bool
  | [], [] => false
  | [], _ :: _ => true
  | _ :: _, [] => false
  | a :: as, b :: bs =>
    if a.toNat < b.toNat then true
    else if b.toNat < a.toNat then false
    else clt as bs

/-- Python `pat in s` substring test: prefix test helper. -/
def isPrefOf : List Char → List Char → Bool
  | [], _ => true
  | _ :: _, [] => false
  | a :: as, b :: bs => a == b && isPrefOf as bs

/-- Python `pat in s` substring test. -/
def hasSubL (pat : List Char) : List Char → Bool
  | [] => pat.isEmpty
  | b :: t => isPrefOf pat (b :: t) || hasSubL pat t

/-- Python `pat in s` on strings. -/
def strHasSub (s pat : String) : Bool := hasSubL pat.data s.data

/-- Python int() applied to a rational: truncation toward zero. -/
def pyTrunc (q : ℚ) : ℤ := q.num.tdiv q.den

/-- Binary maximum on rationals (pandas Series.max combining step). -/
def qmax (a b : ℚ) : ℚ := if a ≤ b then b else a

/-- Maximum of a nonempty list of rationals, as pandas Series.max. -/
def maxQ (a : ℚ) (l : List ℚ) : ℚ := l.foldl qmax a

/-- Binary maximum on integers. -/
def zmax (a b : ℤ) : ℤ := if a ≤ b then b else a

/-- Maximum of a nonempty list of integers. -/
def maxZ (a : ℤ) (l : List ℤ) : ℤ := l.foldl zmax a

/-- One cell of a numeric-ish spreadsheet column. -/
inductive Cell where
  | num (q : ℚ)
  | blank
  | junk (s : String)
  deriving DecidableEq

/-- pd.to_numeric(cell, errors := coerce): a numeric cell parses, anything
else becomes NaN (none). -/
def cellNum : Cell → Option ℚ
  | .num q => some q
  | .blank => none
  | .junk _ => none

/-- pd.to_numeric(..., errors := coerce).fillna(d) for a float column. -/
def toNumD (d : ℚ) (c : Cell) : ℚ := (cellNum c).getD d

/-- pd.to_numeric(..., errors := coerce).fillna(d).astype(int): parse,
default, truncate. -/
def toIntD (d : ℤ) (c : Cell) : ℤ :=
  match cellNum c with
  | some q => pyTrunc q
  | none => d

/-- Python truthiness of str(cell).strip(): blank cells and all-whitespace
junk are falsy. -/
def Cell.isNonBlank : Cell → Bool
  | .num _ => true
  | .blank => false
  | .junk s => !(pyStrip s == "")

/-- Python int(float(str(cell))): succeeds only on numeric cells (float()
raises ValueError on blank or non-numeric text). -/
def cellIntFloat : Cell → Option ℤ
  | .num q => some (pyTrunc q)
  | .blank => none
  | .junk _ => none

/-- Checks that a cell holds an integer value (the shape every id-like
cell written back by db.py has). -/
def Cell.isIntCell : Cell → Bool
  | .num q => q.den == 1
  | .blank => false
  | .junk _ => false

/-- Checks that a cell, if numeric, holds a nonnegative value. -/
def Cell.nonnegIfNum : Cell → Bool
  | .num q => decide (0 ≤ q)
  | .blank => true
  | .junk _ => true

/-- Writing an integer back into a sheet cell (str of an int). -/
def intCell (k : ℤ) : Cell := Cell.num (k : ℚ)

section sortModel

variable {α : Type} (le : α → α → Bool)

/-- Ordered insertion for the insertion-sort model of pandas sort_values. -/
def insertOrd (x : α) : List α → List α
  | [] => [x]
  | a :: l => if le x a then x :: a :: l else a :: insertOrd x l

/-- Insertion sort modeling pandas sort_values with a total preorder
comparator. -/
def pySort : List α → List α
  | [] => []
  | a :: l => insertOrd le a (pySort l)

theorem insertOrd_perm (x : α) : ∀ l : List α, (insertOrd le x l).Perm (x :: l)
  | [] => List.Perm.refl _
  | a :: l => by
    unfold insertOrd
    by_cases h : le x a = true
    · simp [h]
    · rw [if_neg h]
      exact ((insertOrd_perm x l).cons a).trans (List.Perm.swap x a l)

theorem pySort_perm : ∀ l : List α, (pySort le l).Perm l
  | [] => List.Perm.refl _
  | a :: l => (insertOrd_perm le a (pySort le l)).trans ((pySort_perm l).cons a)

theorem insertOrd_pairwise
    (htot : ∀ a b, le a b = true ∨ le b a = true)
    (htrans : ∀ a b c, le a b = true → le b c = true → le a c = true)
    (x : α) :
    ∀ l : List α, l.Pairwise (fun a b => le a b = true) →
      (insertOrd le x l).Pairwise (fun a b => le a b = true)
  | [], _ => by simp [insertOrd]
  | a :: l, h => by
    rcases List.pairwise_cons.1 h with ⟨ha, hl⟩
    unfold insertOrd
    by_cases hle : le x a = true
    · simp only [hle, if_true]
      refine List.pairwise_cons.2 ⟨?_, h⟩
      intro b hb
      rcases List.mem_cons.1 hb with rfl | hb
      · exact hle
      · exact htrans _ _ _ hle (ha b hb)
    · simp only [hle, if_false]
      refine List.pairwise_cons.2 ⟨?_, insertOrd_pairwise htot htrans x l hl⟩
      intro b hb
      rcases List.mem_cons.1 ((insertOrd_perm le x l).mem_iff.1 hb) with hbx | hb
      · rw [hbx]
        rcases htot x a with h' | h'
        · exact absurd h' hle
        · exact h'
      · exact ha b hb

theorem pySort_pairwise
    (htot : ∀ a b, le a b = true ∨ le b a = true)
    (htrans : ∀ a b c, le a b = true → le b c = true → le a c = true) :
    ∀ l : List α, (pySort le l).Pairwise (fun a b => le a b = true)
  | [] => List.Pairwise.nil
  | a :: l => insertOrd_pairwise le htot htrans a (pySort le l)
      (pySort_pairwise htot htrans l)

end sortModel

theorem charEq {a b : Char} (h : a.toNat = b.toNat) : a = b :=
  Char.eq_of_val_eq (UInt32.ext h)

theorem strEq {s t : String} (h : s.data = t.data) : s = t := by
  cases s; cases t; cases h; rfl

theorem clt_irrefl : ∀ l : List Char, clt l l = false
  | [] => rfl
  | a :: l => by simp [clt, clt_irrefl l]

theorem clt_asymm : ∀ a b : List Char, clt a b = true → clt b a = false
  | [], [] => by simp [clt]
  | [], _ :: _ => by simp [clt]
  | _ :: _, [] => by simp [clt]
  | a :: as, b :: bs => by
    intro hab
    by_cases h1 : a.toNat < b.toNat
    · have h2 : ¬ b.toNat < a.toNat := Nat.lt_asymm h1
      simp [clt, h1, h2]
    · by_cases h2 : b.toNat < a.toNat
      · simp [clt, h1, h2] at hab
      · have h3 : clt as bs = true := by simpa [clt, h1, h2] using hab
        simp [clt, h1, h2, clt_asymm as bs h3]

theorem clt_trans : ∀ a b c : List Char,
    clt a b = true → clt b c = true → clt a c = true
  | [], [], _ => by simp [clt]
  | [], _ :: _, [] => by simp [clt]
  | [], _ :: _, _ :: _ => by simp [clt]
  | _ :: _, [], _ => by simp [clt]
  | _ :: _, _ :: _, [] => by simp [clt]
  | a :: as, b :: bs, c :: cs => by
    intro hab hbc
    by_cases h1 : a.toNat < b.toNat <;> by_cases h2 : b.toNat < c.toNat
    · simp [clt, show a.toNat < c.toNat from Nat.lt_trans h1 h2,
        show ¬ c.toNat < a.toNat from Nat.lt_asymm (Nat.lt_trans h1 h2)]
    · by_cases h3 : c.toNat < b.toNat
      · simp [clt, h2, h3] at hbc
      · have hbceq : b.toNat = c.toNat := by omega
        have hac : a.toNat < c.toNat := by omega
        simp [clt, hac, Nat.lt_asymm hac]
    · by_cases h3 : b.toNat < a.toNat
      · simp [clt, h1, h3] at hab
      · have hac : a.toNat < c.toNat := by omega
        simp [clt, hac, Nat.lt_asymm hac]
    · by_cases h3 : b.toNat < a.toNat
      · simp [clt, h1, h3] at hab
      · by_cases h4 : c.toNat < b.toNat
        · simp [clt, h2, h4] at hbc
        · have hab' : clt as bs = true := by simpa [clt, h1, h3] using hab
          have hbc' : clt bs cs = true := by simpa [clt, h2, h4] using hbc
          have : a.toNat = c.toNat := by omega
          simp [clt, this, clt_trans as bs cs hab' hbc']

theorem clt_conn : ∀ a b : List Char, a ≠ b → clt a b = true ∨ clt b a = true
  | [], [] => by simp
  | [], _ :: _ => by simp [clt]
  | _ :: _, [] => by simp [clt]
  | a :: as, b :: bs => by
    intro hne
    by_cases h1 : a.toNat < b.toNat
    · left; simp [clt, h1]
    · by_cases h2 : b.toNat < a.toNat
      · right; simp [clt, h2, Nat.lt_asymm h2]
      · have hab : a = b := charEq (by omega)
        have hts : as ≠ bs := by
          intro h; exact hne (by rw [hab, h])
        rcases clt_conn as bs hts with h | h
        · left; simp [clt, h1, h2, h]
        · right; simp [clt, h1, h2, hab, h]

theorem pyTrunc_intCast (k : ℤ) : pyTrunc (k : ℚ) = k := by
  simp [pyTrunc, Rat.num_intCast, Rat.den_intCast, Int.tdiv_one]

theorem pyTrunc_natCast (n : ℕ) : pyTrunc (n : ℚ) = n := by
  have : ((n : ℤ) : ℚ) = (n : ℚ) := by push_cast; ring
  rw [← this, pyTrunc_intCast]

theorem pyTrunc_eq_floor {q : ℚ} (h : 0 ≤ q) : pyTrunc q = ⌊q⌋ := by
  unfold pyTrunc
  rw [Rat.floor_def]
  exact Int.tdiv_eq_ediv (Rat.num_nonneg.2 h) (Int.ofNat_nonneg q.den)

theorem pyTrunc_nonneg {q : ℚ} (h : 0 ≤ q) : 0 ≤ pyTrunc q := by
  rw [pyTrunc_eq_floor h]
  exact Int.floor_nonneg.2 h

theorem pyTrunc_mono {q r : ℚ} (hq : 0 ≤ q) (hqr : q ≤ r) :
    pyTrunc q ≤ pyTrunc r := by
  rw [pyTrunc_eq_floor hq, pyTrunc_eq_floor (hq.trans hqr)]
  exact Int.floor_mono hqr

theorem le_qmax_left (a b : ℚ) : a ≤ qmax a b := by
  unfold qmax; split <;> linarith

theorem le_qmax_right (a b : ℚ) : b ≤ qmax a b := by
  unfold qmax; split <;> linarith

theorem qmax_cases (a b : ℚ) : qmax a b = a ∨ qmax a b = b := by
  unfold qmax; split
  · right; rfl
  · left; rfl

theorem le_maxQ : ∀ (l : List ℚ) (a b : ℚ), b = a ∨ b ∈ l → b ≤ maxQ a l
  | [], a, b, h => by
    rcases h with rfl | h
    · exact le_refl _
    · simp at h
  | c :: t, a, b, h => by
    have step : maxQ a (c :: t) = maxQ (qmax a c) t := rfl
    rw [step]
    rcases h with rfl | h
    · exact le_trans (le_qmax_left b c) (le_maxQ t (qmax b c) _ (Or.inl rfl))
    · rcases List.mem_cons.1 h with rfl | h
      · exact le_trans (le_qmax_right a b) (le_maxQ t (qmax a b) _ (Or.inl rfl))
      · exact le_maxQ t (qmax a c) b (Or.inr h)

theorem maxQ_cases : ∀ (l : List ℚ) (a : ℚ), maxQ a l = a ∨ maxQ a l ∈ l
  | [], a => Or.inl rfl
  | c :: t, a => by
    have step : maxQ a (c :: t) = maxQ (qmax a c) t := rfl
    rw [step]
    rcases maxQ_cases t (qmax a c) with h | h
    · rcases qmax_cases a c with h' | h'
      · exact Or.inl (by rw [h, h'])
      · exact Or.inr (by rw [h, h']; exact List.mem_cons_self c t)
    · exact Or.inr (List.mem_cons_of_mem c h)

theorem le_zmax_left (a b : ℤ) : a ≤ zmax a b := by
  unfold zmax; split <;> omega

theorem le_zmax_right (a b : ℤ) : b ≤ zmax a b := by
  unfold zmax; split <;> omega

theorem zmax_cases (a b : ℤ) : zmax a b = a ∨ zmax a b = b := by
  unfold zmax; split
  · right; rfl
  · left; rfl

theorem le_maxZ : ∀ (l : List ℤ) (a b : ℤ), b = a ∨ b ∈ l → b ≤ maxZ a l
  | [], a, b, h => by
    rcases h with rfl | h
    · exact le_refl _
    · simp at h
  | c :: t, a, b, h => by
    have step : maxZ a (c :: t) = maxZ (zmax a c) t := rfl
    rw [step]
    rcases h with rfl | h
    · exact le_trans (le_zmax_left b c) (le_maxZ t (zmax b c) _ (Or.inl rfl))
    · rcases List.mem_cons.1 h with rfl | h
      · exact le_trans (le_zmax_right a b) (le_maxZ t (zmax a b) _ (Or.inl rfl))
      · exact le_maxZ t (zmax a c) b (Or.inr h)

theorem maxZ_cases : ∀ (l : List ℤ) (a : ℤ), maxZ a l = a ∨ maxZ a l ∈ l
  | [], a => Or.inl rfl
  | c :: t, a => by
    have step : maxZ a (c :: t) = maxZ (zmax a c) t := rfl
    rw [step]
    rcases maxZ_cases t (zmax a c) with h | h
    · rcases zmax_cases a c with h' | h'
      · exact Or.inl (by rw [h, h'])
      · exact Or.inr (by rw [h, h']; exact List.mem_cons_self c t)
    · exact Or.inr (List.mem_cons_of_mem c h)

theorem find?_key_of_nodup {β : Type} (key : β → ℤ) :
    ∀ (l : List β), (l.map key).Nodup → ∀ x ∈ l,
      l.find? (fun y => key y == key x) = some x
  | [], _, x, hx => by simp at hx
  | a :: t, hnd, x, hx => by
    rcases List.mem_cons.1 hx with rfl | hxt
    · simp [List.find?]
    · have hka : key a ∉ (t.map key) := (List.nodup_cons.1 (by simpa using hnd)).1
      have hne : (key a == key x) = false := by
        simp only [beq_eq_false_iff_ne, ne_eq]
        intro h
        exact hka (h ▸ List.mem_map_of_mem key hxt)
      rw [List.find?_cons, hne]
      exact find?_key_of_nodup key t (List.nodup_cons.1 (by simpa using hnd)).2 x hxt

/-- Triangular sum n*(n+1)/2 as a rational (Python true division). -/
def triQ (n : ℕ) : ℚ := (n : ℚ) * ((n : ℚ) + 1) / 2

/-- Deposit-count allocator _min_n_for_target of db.py.  The Python code
computes n = int((math.sqrt(1 + 8*target) - 1) / 2) and then corrects
upward once; the float sqrt is idealized as the exact real square root,
and the integer part of (sqrt x - 1)/2 for x at least 1 is computed
exactly as (Nat.sqrt (floor x) - 1) / 2 (the standard fact that taking
floors commutes with the monotone maps sqrt and subtract-one-halve). -/
def min_n_for_target (target : ℚ) : ℕ :=
  if target ≤ 0 then 1
  else
    let s := Nat.sqrt (Int.toNat ⌊1 + 8 * target⌋)
    let n0 := (s - 1) / 2
    let n1 := if triQ n0 < target then n0 + 1 else n0
    max 1 n1

theorem min_n_eq_of_pos (T : ℚ) (hT : 0 < T) :
    min_n_for_target T =
      max 1 (if triQ ((Nat.sqrt (Int.toNat ⌊1 + 8 * T⌋) - 1) / 2) < T
             then (Nat.sqrt (Int.toNat ⌊1 + 8 * T⌋) - 1) / 2 + 1
             else (Nat.sqrt (Int.toNat ⌊1 + 8 * T⌋) - 1) / 2) := by
  unfold min_n_for_target
  rw [if_neg (not_le.2 hT)]

theorem triQ_mono {m n : ℕ} (h : m ≤ n) : triQ m ≤ triQ n := by
  unfold triQ
  have hm : (m : ℚ) ≤ n := Nat.cast_le.2 h
  have h0 : (0 : ℚ) ≤ m := Nat.cast_nonneg m
  nlinarith

theorem triQ_succ (n : ℕ) : triQ (n + 1) = triQ n + ((n : ℚ) + 1) := by
  unfold triQ; push_cast; ring

theorem min_n_spec (T : ℚ) (hT : 0 < T) :
    1 ≤ min_n_for_target T ∧ T ≤ triQ (min_n_for_target T) ∧
      ∀ m : ℕ, m < min_n_for_target T → triQ m < T := by
  rw [min_n_eq_of_pos T hT]
  set x : ℚ := 1 + 8 * T with hxdef
  have hx1 : (1 : ℚ) ≤ x := by simp only [hxdef]; linarith
  have hfl1 : 1 ≤ ⌊x⌋ := Int.le_floor.2 (by exact_mod_cast hx1)
  set F : ℕ := Int.toNat ⌊x⌋ with hFdef
  have hFz : ((F : ℤ) : ℚ) = ((⌊x⌋ : ℤ) : ℚ) := by
    rw [hFdef, Int.toNat_of_nonneg (by omega)]
  have hF1 : 1 ≤ F := by
    have : (1 : ℤ) ≤ (F : ℤ) := by
      rw [hFdef, Int.toNat_of_nonneg (by omega)]; exact hfl1
    exact_mod_cast this
  set s : ℕ := Nat.sqrt F with hsdef
  have hs1 : 1 ≤ s := Nat.le_sqrt.2 (by simpa using hF1)
  have hs2 : ((s : ℚ)) ^ 2 ≤ x := by
    have h1 : s ^ 2 ≤ F := Nat.sqrt_le' F
    have h2 : ((s ^ 2 : ℕ) : ℚ) ≤ (F : ℚ) := Nat.cast_le.2 h1
    have h3 : ((F : ℕ) : ℚ) ≤ x := by
      have := Int.floor_le x
      rw [← hFz] at this
      exact_mod_cast this
    calc ((s : ℚ)) ^ 2 = ((s ^ 2 : ℕ) : ℚ) := by push_cast; ring
      _ ≤ (F : ℚ) := h2
      _ ≤ x := h3
  have hx2 : x < ((s : ℚ) + 1) ^ 2 := by
    have h1 : F < (s + 1) ^ 2 := by
      have := Nat.lt_succ_sqrt F
      simpa [hsdef, pow_two, Nat.succ_eq_add_one] using this
    have h2 : (⌊x⌋ : ℚ) + 1 ≤ (((s + 1) ^ 2 : ℕ) : ℚ) := by
      have hZ : (F : ℤ) + 1 ≤ ((s + 1) ^ 2 : ℕ) := by exact_mod_cast h1
      have : ((⌊x⌋ : ℤ) : ℚ) + 1 ≤ (((s + 1) ^ 2 : ℕ) : ℚ) := by
        rw [← hFz]; exact_mod_cast hZ
      exact this
    have h3 : x < (⌊x⌋ : ℚ) + 1 := Int.lt_floor_add_one x
    calc x < (⌊x⌋ : ℚ) + 1 := h3
      _ ≤ (((s + 1) ^ 2 : ℕ) : ℚ) := h2
      _ = ((s : ℚ) + 1) ^ 2 := by push_cast; ring
  set n0 : ℕ := (s - 1) / 2 with hn0def
  have hs_lb : 2 * n0 + 1 ≤ s := by omega
  have hs_ub : s ≤ 2 * n0 + 2 := by omega
  have low : triQ n0 ≤ T := by
    have h1 : ((2 * n0 + 1 : ℕ) : ℚ) ≤ (s : ℚ) := Nat.cast_le.2 hs_lb
    have h2 : ((2 * n0 + 1 : ℕ) : ℚ) ^ 2 ≤ ((s : ℚ)) ^ 2 :=
      pow_le_pow_left₀ (by positivity) h1 2
    have h3 : ((2 * n0 + 1 : ℕ) : ℚ) ^ 2 ≤ x := le_trans h2 hs2
    have h4 : (0 : ℚ) ≤ (n0 : ℚ) := Nat.cast_nonneg n0
    unfold triQ
    push_cast at h3 ⊢
    nlinarith [h3]
  have up : T < triQ (n0 + 1) := by
    have h1 : ((s : ℚ) + 1) ≤ ((2 * n0 + 3 : ℕ) : ℚ) := by
      have : (s : ℚ) ≤ ((2 * n0 + 2 : ℕ) : ℚ) := Nat.cast_le.2 hs_ub
      push_cast at this ⊢
      linarith
    have h2 : ((s : ℚ) + 1) ^ 2 ≤ ((2 * n0 + 3 : ℕ) : ℚ) ^ 2 :=
      pow_le_pow_left₀ (by positivity) h1 2
    have h3 : x < ((2 * n0 + 3 : ℕ) : ℚ) ^ 2 := lt_of_lt_of_le hx2 h2
    unfold triQ
    push_cast at h3 ⊢
    nlinarith [h3]
  by_cases hbr : triQ n0 < T
  · rw [if_pos hbr]
    have hmax : max 1 (n0 + 1) = n0 + 1 := by omega
    rw [hmax]
    refine ⟨by omega, le_of_lt up, ?_⟩
    intro m hm
    exact lt_of_le_of_lt (triQ_mono (by omega : m ≤ n0)) hbr
  · rw [if_neg hbr]
    push_neg at hbr
    have hn01 : 1 ≤ n0 := by
      by_contra hcon
      have hz : n0 = 0 := by omega
      rw [hz] at hbr
      unfold triQ at hbr
      norm_num at hbr
      linarith
    have hmax : max 1 n0 = n0 := by omega
    rw [hmax]
    refine ⟨hn01, hbr, ?_⟩
    intro m hm
    have h2 : triQ m ≤ triQ (n0 - 1) := triQ_mono (by omega)
    have h3 : triQ (n0 - 1) < T := by
      have hstep : triQ ((n0 - 1) + 1) = triQ (n0 - 1) + (((n0 - 1 : ℕ) : ℚ) + 1) :=
        triQ_succ _
      have hn0e : (n0 - 1) + 1 = n0 := by omega
      rw [hn0e] at hstep
      have h5 : (0 : ℚ) ≤ ((n0 - 1 : ℕ) : ℚ) := Nat.cast_nonneg _
      linarith [low]
    exact lt_of_le_of_lt h2 h3

theorem min_n_value (T : ℚ) (N : ℕ) (hT : 0 < T) (hN : 1 ≤ N)
    (h1 : T ≤ triQ N) (h2 : triQ (N - 1) < T) : min_n_for_target T = N := by
  rcases min_n_spec T hT with ⟨hm1, hm2, hm3⟩
  by_contra hne
  rcases Nat.lt_or_ge (min_n_for_target T) N with h | h
  · have := triQ_mono (show min_n_for_target T ≤ N - 1 by omega)
    have := hm2.trans this
    linarith
  · have hlt : N < min_n_for_target T := by omega
    have := hm3 N hlt
    linarith

/-- One row of the transactions worksheet, in the column order of
H_TRANSACTIONS: id, date, description, type, amount, category, paid,
created_at.  The kind column is called ttype as in the Python parameter
name, since type is not a usable field name. -/
structure TxRow where
  id : Cell
  date : String
  description : String
  ttype : String
  amount : Cell
  category : String
  paid : Cell
  created_at : String
  deriving DecidableEq

/-- One row of the savings_tx_link_v2 worksheet (H_SAVINGS_TX_LINK). -/
structure LinkRow where
  n : Cell
  tx_id : Cell
  deriving DecidableEq

/-- One row of the savings_deposits_v2 worksheet (H_SAVINGS_DEPOSITS). -/
structure DepRow where
  n : Cell
  done : Cell
  deriving DecidableEq

/-- One row of the savings_overrides_v2 worksheet (H_SAVINGS_OVERRIDES). -/
structure OvRow where
  n : Cell
  amount : Cell
  deriving DecidableEq

/-- One row of the savings_goal_v2 worksheet (H_SAVINGS_GOAL). -/
structure GoalRow where
  id : Cell
  target_amount : Cell
  due_date : String
  n_deposits : Cell
  deriving DecidableEq

/-- One row of the debts worksheet (H_DEBTS). -/
structure DebtRow where
  id : Cell
  credor : String
  descricao : String
  valor : Cell
  vencimento : String
  prioridade : Cell
  quitada : Cell
  created_at : String
  deriving DecidableEq

/-- The whole record store: the worksheets that the verified claims
touch (adjustments and notes are not needed by any claim). -/
structure DB where
  transactions : List TxRow
  links : List LinkRow
  deposits : List DepRow
  overrides : List OvRow
  goal : List GoalRow
  debts : List DebtRow
  deriving DecidableEq

/-- A row of fetch_transactions output (columns id, date, description,
type, amount, category, paid after defensive parsing). -/
structure FetchedTx where
  id : ℤ
  date : String
  description : String
  ttype : String
  amount : ℚ
  category : String
  paid : ℤ
  deriving DecidableEq

/-- A row of fetch_debts output after defensive parsing. -/
structure FetchedDebt where
  id : ℤ
  credor : String
  descricao : String
  valor : ℚ
  vencimento : String
  prioridade : ℤ
  quitada : ℤ
  created_at : String
  deriving DecidableEq

/-- One incoming row of an update_transactions_bulk batch, with the field
types the Streamlit data editor hands over (id comes from the sheet and
is coerced; the text fields go through str(), amount through float(),
paid through int()). -/
structure UpdRow where
  id : Cell
  date : String
  description : String
  ttype : String
  amount : ℚ
  category : String
  paid : ℤ
  deriving DecidableEq

/-- Next primary key: _next_id of db.py.  Numeric ids are collected
(to_numeric(errors := coerce).dropna()), and the result is
int(max) + 1, or 1 for an empty or fully non-numeric id column. -/
def next_id (rows : List TxRow) : ℤ :=
  match rows.filterMap (fun r => cellNum r.id) with
  | [] => 1
  | q :: qs => pyTrunc (maxQ q qs) + 1

/-- add_transaction of db.py: normalize the input fields, render them as
strings and append a single row.  new id is next_id of the current
table; description and category are stripped, the kind is stripped and
lower-cased, a blank category falls back to "Outros". -/
def add_transaction (date_ description ttype : String) (amount : ℚ)
    (category : String) (paid : ℤ) (now : String) (db : DB) : DB :=
  let new_id := next_id db.transactions
  let row : TxRow :=
    { id := Cell.num (new_id : ℚ)
      date := date_
      description := pyStrip description
      ttype := pyLower (pyStrip ttype)
      amount := Cell.num amount
      category := if pyStrip category = "" then "Outros" else pyStrip category
      paid := Cell.num (paid : ℚ)
      created_at := now }
  { db with transactions := db.transactions ++ [row] }

/-- Defensive parse of one transactions row, as fetch_transactions does
it: amount to_numeric fillna 0.0; paid to_numeric fillna 0 astype int;
type astype(str).strip().lower(); category astype(str) (the subsequent
fillna never fires after astype(str)); date astype(str); id to_numeric
fillna 0 astype int.  The description column is returned unparsed. -/
def parseTxRow (r : TxRow) : FetchedTx :=
  { id := toIntD 0 r.id
    date := readStr r.date
    description := r.description
    ttype := pyLower (pyStrip (readStr r.ttype))
    amount := toNumD 0 r.amount
    category := readStr r.category
    paid := toIntD 0 r.paid }

/-- Comparator of fetch_transactions output: sort_values by (date, id),
both descending. -/
def txLe (x y : FetchedTx) : Bool :=
  clt y.date.data x.date.data ||
    (decide (y.date = x.date) && decide (y.id ≤ x.id))

/-- fetch_transactions of db.py: parse all rows, filter by the optional
date range (Python truthiness: an empty-string bound disables the
filter), sort descending by (date, id). -/
def fetch_transactions (ds de : Option String) (db : DB) : List FetchedTx :=
  if db.transactions.isEmpty then []
  else
    let l0 := db.transactions.map parseTxRow
    let l1 := match ds with
      | some d => if d = "" then l0 else l0.filter (fun r => !(clt r.date.data d.data))
      | none => l0
    let l2 := match de with
      | some d => if d = "" then l1 else l1.filter (fun r => !(clt d.data r.date.data))
      | none => l1
    pySort txLe l2

/-- delete_transaction of db.py.  First the savings_tx_link_v2 table is
rewritten without the rows whose coerced tx_id equals the target (the
coercion to_numeric(errors := coerce).fillna(-1).astype(int) is written
back for the surviving rows); then the transactions table is rewritten
without the rows whose coerced id equals the target (coerced ids are
written back).  An empty link table skips the link rewrite; an empty
transactions table returns after the link rewrite. -/
def delete_transaction (tx_id : ℤ) (db : DB) : DB :=
  let links' :=
    if db.links.isEmpty then db.links
    else (db.links.map (fun l => { l with tx_id := intCell (toIntD (-1) l.tx_id) })).filter
      (fun l => !(toIntD (-1) l.tx_id == tx_id))
  let db := { db with links := links' }
  if db.transactions.isEmpty then db
  else
    let tx' := (db.transactions.map (fun r => { r with id := intCell (toIntD 0 r.id) })).filter
      (fun r => !(toIntD 0 r.id == tx_id))
    { db with transactions := tx' }

/-- Field overwrite of update_transactions_bulk for one matched row:
every mutable column is replaced by the stringified incoming value, with
the same normalization as add_transaction. -/
def applyUpd (u : UpdRow) (r : TxRow) : TxRow :=
  { r with
    date := u.date
    description := pyStrip u.description
    ttype := pyLower (pyStrip u.ttype)
    amount := Cell.num u.amount
    category := if pyStrip u.category = "" then "Outros" else pyStrip u.category
    paid := Cell.num (u.paid : ℚ) }

/-- Loop body of update_transactions_bulk for one incoming batch row:
if its coerced id matches any row of the accumulator, overwrite the
mutable fields of every matching row, otherwise skip it silently. -/
def updStep (acc : List TxRow) (u : UpdRow) : List TxRow :=
  let rid := toIntD 0 u.id
  if acc.any (fun r => toIntD 0 r.id == rid) then
    acc.map (fun r => if toIntD 0 r.id == rid then applyUpd u r else r)
  else acc

/-- update_transactions_bulk of db.py: coerce the table ids, run the
update loop (updStep per batch row), rewrite once.  The second component
counts the full-table rewrites (0 on the early returns). -/
def update_transactions_bulk (updates : List UpdRow) (db : DB) : DB × ℕ :=
  if updates.isEmpty then (db, 0)
  else if db.transactions.isEmpty then (db, 0)
  else
    let tx0 := db.transactions.map
      (fun r => { r with id := intCell (toIntD 0 r.id) })
    let tx1 := updates.foldl updStep tx0
    ({ db with transactions := tx1 }, 1)

/-- Defensive parse of one debts row, as fetch_debts does it. -/
def parseDebtRow (r : DebtRow) : FetchedDebt :=
  { id := toIntD 0 r.id
    credor := r.credor
    descricao := r.descricao
    valor := toNumD 0 r.valor
    vencimento := readStr r.vencimento
    prioridade := toIntD 1 r.prioridade
    quitada := toIntD 0 r.quitada
    created_at := r.created_at }

/-- Comparator of fetch_debts output: sort_values by (prioridade asc,
vencimento asc as strings, id desc). -/
def debtLe (x y : FetchedDebt) : Bool :=
  decide (x.prioridade < y.prioridade) ||
    (decide (x.prioridade = y.prioridade) &&
      (clt x.vencimento.data y.vencimento.data ||
        (decide (x.vencimento = y.vencimento) && decide (y.id ≤ x.id))))

/-- fetch_debts of db.py: parse all rows, drop settled debts unless
show_quitadas, sort by (prioridade asc, vencimento asc, id desc). -/
def fetch_debts (show_quitadas : Bool) (db : DB) : List FetchedDebt :=
  if db.debts.isEmpty then []
  else
    let l0 := db.debts.map parseDebtRow
    let l1 := if show_quitadas then l0 else l0.filter (fun r => r.quitada == 0)
    pySort debtLe l1

/-- set_savings_goal_v2 of db.py.  Recomputes n, rewrites the goal
singleton as the row (1, target, due or empty, n), rewrites the deposits
table to rows 1..n preserving the coerced done flag of an existing index
(Python dict comprehension: on duplicate indices the last row wins, which
the reversed find? reproduces), keeps only overrides and links whose
coerced index is at most n (writing the coerced index back). -/
def set_savings_goal_v2 (target : ℚ) (due : Option String) (db : DB) : DB :=
  let n := min_n_for_target target
  let goal' : List GoalRow :=
    [{ id := Cell.num 1, target_amount := Cell.num target,
       due_date := due.getD "", n_deposits := Cell.num (n : ℚ) }]
  let existing : ℤ → Option ℤ := fun k =>
    ((db.deposits.map (fun d => (toIntD 0 d.n, toIntD 0 d.done))).reverse.find?
      (fun p => p.1 == k)).map (fun p => p.2)
  let deposits' : List DepRow := (List.range n).map (fun (i : ℕ) =>
    { n := intCell ((i : ℤ) + 1), done := intCell ((existing ((i : ℤ) + 1)).getD 0) })
  let overrides' : List OvRow := db.overrides.filterMap (fun o =>
    let k := toIntD 0 o.n
    if k ≤ (n : ℤ) then some { n := intCell k, amount := o.amount } else none)
  let links' : List LinkRow := db.links.filterMap (fun l =>
    let k := toIntD 0 l.n
    if k ≤ (n : ℤ) then some { n := intCell k, tx_id := l.tx_id } else none)
  { db with goal := goal', deposits := deposits',
            overrides := overrides', links := links' }

/-- Comparator for sort_values("n") over deposit rows whose n column has
been coerced to ints. -/
def depLe (x y : DepRow) : Bool := decide (toIntD 0 x.n ≤ toIntD 0 y.n)

/-- reset_savings_marks_v2 of db.py.  With a non-empty deposits table,
coerce the n column, set every done flag to "0", rewrite the deposit rows
sorted by n, and clear the whole savings_tx_link_v2 table; with an empty
deposits table return without touching anything. -/
def reset_savings_marks_v2 (db : DB) : DB :=
  if db.deposits.isEmpty then db
  else
    let dep0 := db.deposits.map (fun d => { d with n := intCell (toIntD 0 d.n) })
    let deposits' := (pySort depLe dep0).map (fun d => { d with done := Cell.num 0 })
    { db with deposits := deposits', links := [] }

/-- Rewrite loop of the link table in create_desafio_transaction: every
row is written as str(int(float(cell))) for both columns, which raises
ValueError (none) on a blank or non-numeric cell. -/
def writeLinks : List LinkRow → Option (List LinkRow)
  | [] => some []
  | l :: t =>
    match cellIntFloat l.n, cellIntFloat l.tx_id, writeLinks t with
    | some a, some b, some rest => some ({ n := intCell a, tx_id := intCell b } :: rest)
    | _, _, _ => none

/-- Creation path of create_desafio_transaction of db.py, taken when no
usable link row exists for the index: add the challenge transaction
through add_transaction, take the maximum id of a full fetch as the new
transaction id, append the link row (n, tx_id), and rewrite the link
table through the int(float(str(...))) loop. -/
def createDesafioPath (date_ : String) (n : ℤ) (amount : ℚ)
    (now : String) (db : DB) : Option (ℤ × DB) :=
  let db1 := add_transaction date_ ("Desafio - Depósito #" ++ toString n)
    "entrada" amount "Desafio" 1 now db
  let ids := (fetch_transactions none none db1).map (fun f => f.id)
  let tid : ℤ := match ids with
    | [] => 1
    | a :: t => maxZ a t
  let base := if db.links.isEmpty then []
    else db.links.map (fun l => { l with n := intCell (toIntD 0 l.n) })
  match writeLinks (base ++ [{ n := intCell n, tx_id := intCell tid }]) with
  | some ls => some (tid, { db1 with links := ls })
  | none => none

/-- create_desafio_transaction of db.py.  If the link table has a row for
the coerced index n whose tx_id is non-blank, return int(float(tx_id))
without touching anything (none models the ValueError when that tx_id is
non-blank junk).  Otherwise run the creation path. -/
def create_desafio_transaction (date_ : String) (n : ℤ) (amount : ℚ)
    (now : String) (db : DB) : Option (ℤ × DB) :=
  let links0 := db.links.map (fun l => { l with n := intCell (toIntD 0 l.n) })
  if db.links.isEmpty then createDesafioPath date_ n amount now db
  else
    match links0.find? (fun l => toIntD 0 l.n == n) with
    | some row =>
      if row.tx_id.isNonBlank then
        match cellIntFloat row.tx_id with
        | some t => some (t, db)
        | none => none
      else createDesafioPath date_ n amount now db
    | none => createDesafioPath date_ n amount now db

/-- delete_desafio_transaction of db.py.  Look up the link row for the
coerced index n; if its tx_id is non-blank, delete the referenced
transaction through delete_transaction (none models the ValueError of
int(float(tx_id)) on junk); then rewrite the link table from the
in-memory copy read before that cascade, keeping only rows with a
different index (so the coerced n column is written back and the link
rewrite done inside delete_transaction is overwritten). -/
def delete_desafio_transaction (n : ℤ) (db : DB) : Option DB :=
  if db.links.isEmpty then some db
  else
    let links0 := db.links.map (fun l => { l with n := intCell (toIntD 0 l.n) })
    match links0.find? (fun l => toIntD 0 l.n == n) with
    | none => some db
    | some row =>
      let step : Option DB :=
        if row.tx_id.isNonBlank then
          match cellIntFloat row.tx_id with
          | some t => some (delete_transaction t db)
          | none => none
        else some db
      match step with
      | none => none
      | some db1 => some { db1 with links := links0.filter (fun l => !(toIntD 0 l.n == n)) }

/-- Outcome of one attempt of a remote operation: a value or a raised
exception carrying its message. -/
inductive PyOutcome (α : Type) where
  | ok (v : α)
  | exn (msg : String)

/-- Final outcome of the retry executor: the value, or the exception it
raises (none stands for the degenerate raise of the initial last = None,
which can only happen with tries = 0). -/
inductive RetryRes (α : Type) where
  | success (v : α)
  | failure (e : Option String)
  deriving DecidableEq

/-- Transient-error classification of _with_retry: the lower-cased
message contains 429, quota, rate or user-rate. -/
def isTransientMsg (m : String) : Bool :=
  let msg := pyLower m
  strHasSub msg "429" || strHasSub msg "quota" ||
    strHasSub msg "rate" || strHasSub msg "user-rate"

/-- Loop of _with_retry: i is the current attempt index, rem the number
of attempts left, last the most recent exception.  Returns the list of
performed backoff sleeps (base_sleep * 2 ^ attempt, no jitter) together
with the outcome. -/
def retryGo {α : Type} (fn : ℕ → PyOutcome α) (base : ℚ) :
    ℕ → ℕ → Option String → List ℚ × RetryRes α
  | _, 0, last => ([], .failure last)
  | i, rem + 1, _ =>
    match fn i with
    | .ok v => ([], .success v)
    | .exn m =>
      if isTransientMsg m then
        let r := retryGo fn base (i + 1) rem (some m)
        (base * 2 ^ i :: r.1, r.2)
      else ([], .failure (some m))

/-- with_retry of db.py (_with_retry): run fn, retry transient failures
with exponential backoff up to tries attempts, raise the last error after
exhaustion, propagate a non-transient error immediately.  The attempt
behavior is a function from the attempt index to that attempt's outcome. -/
def with_retry {α : Type} (fn : ℕ → PyOutcome α) (tries : ℕ) (base : ℚ) :
    List ℚ × RetryRes α :=
  retryGo fn base 0 tries none

theorem toIntD_intCell (d k : ℤ) : toIntD d (intCell k) = k := by
  simp [toIntD, intCell, cellNum, pyTrunc_intCast]

theorem toNumD_num (d : ℚ) (q : ℚ) : toNumD d (Cell.num q) = q := rfl

theorem isNonBlank_intCell (k : ℤ) : (intCell k).isNonBlank = true := rfl

theorem cellIntFloat_intCell (k : ℤ) : cellIntFloat (intCell k) = some k := by
  simp [cellIntFloat, intCell, pyTrunc_intCast]

theorem isIntCell_elim {c : Cell} (h : c.isIntCell = true) :
    ∃ k : ℤ, c = intCell k := by
  cases c with
  | num q =>
    refine ⟨q.num, ?_⟩
    have hden : q.den = 1 := by simpa [Cell.isIntCell] using h
    have := (Rat.den_eq_one_iff q).1 hden
    simp [intCell, this]
  | blank => simp [Cell.isIntCell] at h
  | junk s => simp [Cell.isIntCell] at h

theorem intCell_isIntCell (k : ℤ) : (intCell k).isIntCell = true := by
  simp [intCell, Cell.isIntCell, Rat.den_intCast]

theorem toIntD_coerce_self (d : ℤ) {c : Cell} (h : c.isIntCell = true) :
    intCell (toIntD d c) = c := by
  rcases isIntCell_elim h with ⟨k, rfl⟩
  rw [toIntD_intCell]

/-- Head-digit test on a string: the shape of an ISO date, as opposed to
the "nan" rendering of a missing value. -/
def isDigitHead (s : String) : Bool :=
  match s.data with
  | [] => false
  | c :: _ => decide (48 ≤ c.toNat ∧ c.toNat ≤ 57)

theorem txLe_total (x y : FetchedTx) : txLe x y = true ∨ txLe y x = true := by
  unfold txLe
  by_cases hd : x.date = y.date
  · by_cases hid : y.id ≤ x.id
    · left; simp [hd, hid]
    · right
      have h2 : x.id ≤ y.id := by omega
      simp [hd, h2]
  · have hne : x.date.data ≠ y.date.data := fun h => hd (strEq h)
    rcases clt_conn _ _ hne with h | h
    · right; simp [h]
    · left; simp [h]

theorem txLe_trans (x y z : FetchedTx) (h1 : txLe x y = true)
    (h2 : txLe y z = true) : txLe x z = true := by
  unfold txLe at h1 h2 ⊢
  simp only [Bool.or_eq_true, Bool.and_eq_true, decide_eq_true_eq] at h1 h2 ⊢
  rcases h1 with h1 | ⟨h1e, h1i⟩ <;> rcases h2 with h2 | ⟨h2e, h2i⟩
  · left; exact clt_trans _ _ _ h2 h1
  · left; rw [h2e]; exact h1
  · left; rw [← h1e]; exact h2
  · right; exact ⟨by rw [h2e, h1e], le_trans h2i h1i⟩

theorem debtLe_total (x y : FetchedDebt) : debtLe x y = true ∨ debtLe y x = true := by
  unfold debtLe
  by_cases hp : x.prioridade = y.prioridade
  · by_cases hv : x.vencimento = y.vencimento
    · by_cases hid : y.id ≤ x.id
      · left; simp [hp, hv, hid]
      · right
        have h2 : x.id ≤ y.id := by omega
        simp [hp, hv, h2]
    · have hne : x.vencimento.data ≠ y.vencimento.data := fun h => hv (strEq h)
      rcases clt_conn _ _ hne with h | h
      · left; simp [hp, h]
      · right; simp [hp, h]
  · rcases lt_or_gt_of_ne hp with h | h
    · left; simp [h]
    · right; simp [h]

theorem debtLe_trans (x y z : FetchedDebt) (h1 : debtLe x y = true)
    (h2 : debtLe y z = true) : debtLe x z = true := by
  unfold debtLe at h1 h2 ⊢
  simp only [Bool.or_eq_true, Bool.and_eq_true, decide_eq_true_eq] at h1 h2 ⊢
  rcases h1 with h1 | ⟨h1e, h1r⟩
  · rcases h2 with h2 | ⟨h2e, _⟩
    · left; omega
    · left; omega
  · rcases h2 with h2 | ⟨h2e, h2r⟩
    · left; omega
    · right
      refine ⟨by omega, ?_⟩
      rcases h1r with h1v | ⟨h1v, h1i⟩
      · rcases h2r with h2v | ⟨h2v, _⟩
        · left; exact clt_trans _ _ _ h1v h2v
        · left; rw [← h2v]; exact h1v
      · rcases h2r with h2v | ⟨h2v, h2i⟩
        · left; rw [h1v]; exact h2v
        · right; exact ⟨by rw [h1v, h2v], le_trans h2i h1i⟩

theorem depLe_total (x y : DepRow) : depLe x y = true ∨ depLe y x = true := by
  unfold depLe
  simp only [decide_eq_true_eq]
  omega

theorem depLe_trans (x y z : DepRow) (h1 : depLe x y = true)
    (h2 : depLe y z = true) : depLe x z = true := by
  unfold depLe at h1 h2 ⊢
  simp only [decide_eq_true_eq] at h1 h2 ⊢
  omega

theorem debtLe_nan_blocks (a b : FetchedDebt) (hle : debtLe a b = true)
    (hp : a.prioridade = b.prioridade) (hnan : a.vencimento = "nan")
    (hdig : isDigitHead b.vencimento = true) : False := by
  unfold debtLe at hle
  simp only [Bool.or_eq_true, Bool.and_eq_true, decide_eq_true_eq] at hle
  obtain ⟨c, tl, hbd⟩ : ∃ c tl, b.vencimento.data = c :: tl := by
    unfold isDigitHead at hdig
    rcases hb : b.vencimento.data with _ | ⟨c, tl⟩
    · rw [hb] at hdig; simp at hdig
    · exact ⟨c, tl, rfl⟩
  have hc : 48 ≤ c.toNat ∧ c.toNat ≤ 57 := by
    unfold isDigitHead at hdig
    rw [hbd] at hdig
    simpa using hdig
  have h110 : ('n' : Char).toNat = 110 := rfl
  rcases hle with h | ⟨he, hr⟩
  · omega
  · rcases hr with h | ⟨h, _⟩
    · rw [hnan] at h
      have hn : ("nan" : String).data = ['n', 'a', 'n'] := rfl
      rw [hn, hbd] at h
      simp only [clt] at h
      rw [if_neg (by simp only [h110]; omega), if_pos (by simp only [h110]; omega)] at h
      exact absurd h (by simp)
    · rw [hnan] at h
      have hdata : ("nan" : String).data = c :: tl := by rw [h, hbd]
      have hn : ("nan" : String).data = ['n', 'a', 'n'] := rfl
      rw [hn] at hdata
      injection hdata with hc1 _
      have hceq : c.toNat = 110 := by rw [← hc1]; exact h110
      omega

theorem intCell_inj {a b : ℤ} (h : intCell a = intCell b) : a = b := by
  simpa [intCell, Cell.num.injEq, Int.cast_inj] using h

theorem txRow_id_eta (r : TxRow) : ({ r with id := r.id } : TxRow) = r := rfl

theorem coerce_tx_self {r : TxRow} (h : r.id.isIntCell = true) :
    ({ r with id := intCell (toIntD 0 r.id) } : TxRow) = r := by
  rw [toIntD_coerce_self 0 h]

theorem mem_tx_ids_nonneg {rows : List TxRow}
    (hwf : rows.all (fun r => r.id.nonnegIfNum) = true) {q : ℚ}
    (hq : q ∈ rows.filterMap (fun r => cellNum r.id)) : 0 ≤ q := by
  rcases List.mem_filterMap.1 hq with ⟨r, hr, hcell⟩
  have h := List.all_eq_true.1 hwf r hr
  cases hc : r.id with
  | num q' =>
    rw [hc] at hcell
    simp only [cellNum, Option.some.injEq] at hcell
    rw [hc] at h
    simp only [Cell.nonnegIfNum, decide_eq_true_eq] at h
    rw [← hcell]
    exact h
  | blank => rw [hc] at hcell; simp [cellNum] at hcell
  | junk s => rw [hc] at hcell; simp [cellNum] at hcell

theorem next_id_nil {rows : List TxRow}
    (h : rows.filterMap (fun r => cellNum r.id) = []) : next_id rows = 1 := by
  unfold next_id
  rw [h]

theorem next_id_cons {rows : List TxRow} {q : ℚ} {qs : List ℚ}
    (h : rows.filterMap (fun r => cellNum r.id) = q :: qs) :
    next_id rows = pyTrunc (maxQ q qs) + 1 := by
  unfold next_id
  rw [h]

theorem next_id_pos (rows : List TxRow)
    (hwf : rows.all (fun r => r.id.nonnegIfNum) = true) : 1 ≤ next_id rows := by
  cases hids : rows.filterMap (fun r => cellNum r.id) with
  | nil => rw [next_id_nil hids]
  | cons q qs =>
    rw [next_id_cons hids]
    have h0 : 0 ≤ q := mem_tx_ids_nonneg hwf (by rw [hids]; exact List.mem_cons_self q qs)
    have hmax : 0 ≤ maxQ q qs := le_trans h0 (le_maxQ qs q q (Or.inl rfl))
    have := pyTrunc_nonneg hmax
    omega

theorem toIntD_lt_next_id (rows : List TxRow)
    (hwf : rows.all (fun r => r.id.nonnegIfNum) = true) :
    ∀ r ∈ rows, toIntD 0 r.id < next_id rows := by
  intro r hr
  cases hc : r.id with
  | num q' =>
    have hmem : q' ∈ rows.filterMap (fun r => cellNum r.id) :=
      List.mem_filterMap.2 ⟨r, hr, by rw [hc]; rfl⟩
    have h0 : 0 ≤ q' := mem_tx_ids_nonneg hwf hmem
    simp only [toIntD, hc, cellNum]
    cases hids : rows.filterMap (fun r => cellNum r.id) with
    | nil => rw [hids] at hmem; simp at hmem
    | cons q qs =>
      rw [next_id_cons hids]
      rw [hids] at hmem
      have hle : q' ≤ maxQ q qs := by
        refine le_maxQ qs q q' ?_
        rcases List.mem_cons.1 hmem with h | h
        · exact Or.inl h
        · exact Or.inr h
      have := pyTrunc_mono h0 hle
      omega
  | blank =>
    have := next_id_pos rows hwf
    simp only [toIntD, hc, cellNum]
    omega
  | junk s =>
    have := next_id_pos rows hwf
    simp only [toIntD, hc, cellNum]
    omega

/-- Referential consistency of the link table: every link row holds an
integer transaction id that references an existing transaction row. -/
def Consistent (db : DB) : Prop :=
  ∀ l ∈ db.links, ∃ t : ℤ, l.tx_id = intCell t ∧
    ∃ r ∈ db.transactions, r.id = intCell t

theorem delete_transaction_links_eq (txId : ℤ) (db : DB) :
    (delete_transaction txId db).links =
      if db.links.isEmpty then db.links
      else (db.links.map (fun l => { l with tx_id := intCell (toIntD (-1) l.tx_id) })).filter
        (fun l => !(toIntD (-1) l.tx_id == txId)) := by
  by_cases h1 : db.links.isEmpty <;> by_cases h2 : db.transactions.isEmpty <;>
    simp [delete_transaction, h1, h2]

theorem delete_transaction_tx_eq (txId : ℤ) (db : DB) :
    (delete_transaction txId db).transactions =
      if db.transactions.isEmpty then db.transactions
      else (db.transactions.map (fun r => { r with id := intCell (toIntD 0 r.id) })).filter
        (fun r => !(toIntD 0 r.id == txId)) := by
  by_cases h1 : db.links.isEmpty <;> by_cases h2 : db.transactions.isEmpty <;>
    simp [delete_transaction, h1, h2]

theorem delete_transaction_rest (txId : ℤ) (db : DB) :
    (delete_transaction txId db).deposits = db.deposits ∧
      (delete_transaction txId db).overrides = db.overrides ∧
      (delete_transaction txId db).goal = db.goal ∧
      (delete_transaction txId db).debts = db.debts := by
  by_cases h1 : db.links.isEmpty <;> by_cases h2 : db.transactions.isEmpty <;>
    simp [delete_transaction, h1, h2]

theorem delete_tx_no_tx (txId : ℤ) (db : DB) :
    ∀ r ∈ (delete_transaction txId db).transactions, toIntD 0 r.id ≠ txId := by
  intro r hr
  rw [delete_transaction_tx_eq] at hr
  by_cases h : db.transactions.isEmpty
  · rw [if_pos h] at hr
    rw [List.isEmpty_iff.1 h] at hr
    simp at hr
  · rw [if_neg h] at hr
    have := (List.mem_filter.1 hr).2
    simpa using this

theorem delete_tx_no_link (txId : ℤ) (db : DB) :
    ∀ l ∈ (delete_transaction txId db).links, toIntD (-1) l.tx_id ≠ txId := by
  intro l hl
  rw [delete_transaction_links_eq] at hl
  by_cases h : db.links.isEmpty
  · rw [if_pos h] at hl
    rw [List.isEmpty_iff.1 h] at hl
    simp at hl
  · rw [if_neg h] at hl
    have := (List.mem_filter.1 hl).2
    simpa using this

theorem mem_delete_tx_of_survivor (txId : ℤ) (db : DB) {r : TxRow} {t : ℤ}
    (hr : r ∈ db.transactions) (hid : r.id = intCell t) (hne : t ≠ txId) :
    r ∈ (delete_transaction txId db).transactions := by
  rw [delete_transaction_tx_eq]
  have hnonempty : db.transactions.isEmpty = false := by
    cases hc : db.transactions with
    | nil => rw [hc] at hr; simp at hr
    | cons a l => rfl
  rw [hnonempty]
  simp only [Bool.false_eq_true, if_false]
  apply List.mem_filter.2
  constructor
  · apply List.mem_map.2
    refine ⟨r, hr, ?_⟩
    rw [hid, toIntD_intCell, ← hid]
  · rw [hid, toIntD_intCell]
    simpa using hne

theorem delete_tx_consistent (txId : ℤ) (db : DB) (hc : Consistent db) :
    Consistent (delete_transaction txId db) := by
  intro l' hl'
  rw [delete_transaction_links_eq] at hl'
  by_cases h : db.links.isEmpty
  · rw [if_pos h] at hl'
    rw [List.isEmpty_iff.1 h] at hl'
    simp at hl'
  · rw [if_neg h] at hl'
    rcases List.mem_filter.1 hl' with ⟨hmem, hpred⟩
    rcases List.mem_map.1 hmem with ⟨l, hlmem, hfl⟩
    rcases hc l hlmem with ⟨t, htx, r, hrmem, hrid⟩
    have hcoerce : toIntD (-1) l.tx_id = t := by rw [htx, toIntD_intCell]
    have htx' : l'.tx_id = intCell t := by
      rw [← hfl]
      simp [hcoerce]
    have hne : t ≠ txId := by
      rw [← hfl] at hpred
      simp only [hcoerce] at hpred
      simpa [toIntD_intCell] using hpred
    exact ⟨t, htx', r, mem_delete_tx_of_survivor txId db hrmem hrid hne, hrid⟩

theorem delete_desafio_empty (n : ℤ) (db : DB) (h : db.links.isEmpty = true) :
    delete_desafio_transaction n db = some db := by
  simp [delete_desafio_transaction, h]

theorem delete_desafio_none (n : ℤ) (db : DB) (h1 : db.links.isEmpty = false)
    (h2 : (db.links.map (fun l => { l with n := intCell (toIntD 0 l.n) })).find?
      (fun l => toIntD 0 l.n == n) = none) :
    delete_desafio_transaction n db = some db := by
  simp [delete_desafio_transaction, h1, h2]

theorem delete_desafio_some_num (n : ℤ) (db : DB) (row : LinkRow) (t : ℤ)
    (h1 : db.links.isEmpty = false)
    (h2 : (db.links.map (fun l => { l with n := intCell (toIntD 0 l.n) })).find?
      (fun l => toIntD 0 l.n == n) = some row)
    (h3 : row.tx_id = intCell t) :
    delete_desafio_transaction n db =
      some { delete_transaction t db with
             links := (db.links.map (fun l => { l with n := intCell (toIntD 0 l.n) })).filter
               (fun l => !(toIntD 0 l.n == n)) } := by
  simp [delete_desafio_transaction, h1, h2, h3, isNonBlank_intCell, cellIntFloat_intCell]

theorem link_key_unique {links : List LinkRow}
    (hnodup : (links.map (fun l => toIntD 0 l.n)).Nodup) {a b : LinkRow}
    (ha : a ∈ links) (hb : b ∈ links) (hk : toIntD 0 a.n = toIntD 0 b.n) : a = b := by
  by_contra hne
  have hpm : links.Pairwise (fun x y => toIntD 0 x.n ≠ toIntD 0 y.n) :=
    (List.pairwise_map.1 hnodup)
  have hsym : Symmetric (fun x y : LinkRow => toIntD 0 x.n ≠ toIntD 0 y.n) := by
    intro x y h h2
    exact h h2.symm
  exact (List.Pairwise.forall hsym hpm ha hb hne) hk

theorem delete_desafio_ok (n : ℤ) (db : DB) (hc : Consistent db)
    (hinj : db.links.Pairwise
      (fun l1 l2 => ∀ t : ℤ, l1.tx_id = intCell t → l2.tx_id ≠ intCell t))
    (hnodup : (db.links.map (fun l => toIntD 0 l.n)).Nodup) :
    ∃ db', delete_desafio_transaction n db = some db' ∧
      Consistent db' ∧
      (∀ l ∈ db'.links, toIntD 0 l.n ≠ n) ∧
      (∀ l ∈ db.links, toIntD 0 l.n = n → ∀ t : ℤ, l.tx_id = intCell t →
        ∀ r ∈ db'.transactions, r.id ≠ intCell t) ∧
      db'.deposits = db.deposits ∧ db'.overrides = db.overrides ∧
      db'.goal = db.goal := by
  by_cases hemp : db.links.isEmpty = true
  · refine ⟨db, delete_desafio_empty n db hemp, hc, ?_, ?_, rfl, rfl, rfl⟩
    · intro l hl
      rw [List.isEmpty_iff.1 hemp] at hl
      simp at hl
    · intro l hl
      rw [List.isEmpty_iff.1 hemp] at hl
      simp at hl
  · have hemp' : db.links.isEmpty = false := by simpa using hemp
    cases hfind : (db.links.map (fun l => { l with n := intCell (toIntD 0 l.n) })).find?
        (fun l => toIntD 0 l.n == n) with
    | none =>
      have hkey : ∀ l ∈ db.links, toIntD 0 l.n ≠ n := by
        intro l hl
        have hm : ({ l with n := intCell (toIntD 0 l.n) } : LinkRow) ∈
            db.links.map (fun l => { l with n := intCell (toIntD 0 l.n) }) :=
          List.mem_map_of_mem _ hl
        have hp := List.find?_eq_none.1 hfind _ hm
        simpa [toIntD_intCell] using hp
      refine ⟨db, delete_desafio_none n db hemp' hfind, hc, hkey, ?_, rfl, rfl, rfl⟩
      intro l hl hln
      exact absurd hln (hkey l hl)
    | some row =>
      have hrowmem : row ∈ db.links.map (fun l => { l with n := intCell (toIntD 0 l.n) }) :=
        List.mem_of_find?_eq_some hfind
      have hrowpred := List.find?_some hfind
      rcases List.mem_map.1 hrowmem with ⟨l0, hl0mem, hl0eq⟩
      rcases hc l0 hl0mem with ⟨t, htx0, r0, hr0mem, hr0id⟩
      have hrowtx : row.tx_id = intCell t := by rw [← hl0eq]; exact htx0
      have hl0key : toIntD 0 l0.n = n := by
        have h := hrowpred
        rw [← hl0eq] at h
        simpa [toIntD_intCell] using h
      have heq := delete_desafio_some_num n db row t hemp' hfind hrowtx
      refine ⟨_, heq, ?_, ?_, ?_, ?_, ?_, ?_⟩
      · -- consistency of the result
        intro l' hl'
        rcases List.mem_filter.1 hl' with ⟨hmem', hpred'⟩
        rcases List.mem_map.1 hmem' with ⟨l, hlmem, hleq⟩
        rcases hc l hlmem with ⟨t', htx', r, hrmem, hrid⟩
        have hlkey : toIntD 0 l.n ≠ n := by
          rw [← hleq] at hpred'
          simpa [toIntD_intCell] using hpred'
        have hlnel0 : l0 ≠ l := by
          intro h
          exact hlkey (h ▸ hl0key)
        have hsym : Symmetric
            (fun l1 l2 : LinkRow => ∀ t : ℤ, l1.tx_id = intCell t → l2.tx_id ≠ intCell t) := by
          intro x y h t hy hx2
          exact (h t hx2) hy
        have htt' : t' ≠ t := by
          intro h
          subst h
          exact (List.Pairwise.forall hsym hinj hl0mem hlmem hlnel0) t' htx0 htx'
        have hrmem' : r ∈ (delete_transaction t db).transactions :=
          mem_delete_tx_of_survivor t db hrmem hrid htt'
        refine ⟨t', ?_, r, hrmem', hrid⟩
        rw [← hleq]
        exact htx'
      · -- no link row for n survives
        intro l' hl'
        rcases List.mem_filter.1 hl' with ⟨_, hpred'⟩
        simpa using hpred'
      · -- the referenced transaction is gone
        intro l hl hkey t'' htx''
        have hll0 : l = l0 := link_key_unique hnodup hl hl0mem (by rw [hkey, hl0key])
        subst hll0
        have htteq : t'' = t := intCell_inj (htx''.symm.trans htx0)
        subst htteq
        intro r hr hrid
        have := delete_tx_no_tx t'' db r hr
        rw [hrid, toIntD_intCell] at this
        exact this rfl
      · exact (delete_transaction_rest t db).1
      · exact (delete_transaction_rest t db).2.1
      · exact (delete_transaction_rest t db).2.2.1

/-- Example transaction row with id 5 used by the C1 instances. -/
def c1Tx5 : TxRow :=
  ⟨Cell.num 5, "2025-01-01", "d", "entrada", Cell.num 5, "c", Cell.num 1, "t"⟩

/-- Store for the C1 witness: transaction 5 and a single link 1 -> 5. -/
def c1WitDB : DB := ⟨[c1Tx5], [⟨Cell.num 1, Cell.num 5⟩], [], [], [], []⟩

/-- Store for the C1 counterexample: transaction 5 referenced by the two
link rows 1 -> 5 and 2 -> 5. -/
def c1CexDB : DB :=
  ⟨[c1Tx5], [⟨Cell.num 1, Cell.num 5⟩, ⟨Cell.num 2, Cell.num 5⟩], [], [], [], []⟩

/-- C1 (amended).  delete_transaction removes every link row whose coerced
tx_id equals the target and every transaction row whose coerced id equals
the target, and preserves referential consistency of the link table; and
provided the store is consistent, no two link rows reference the same
transaction, and link indices are unique (at most one link per n),
delete_desafio_transaction n succeeds, removes the link row for n and the
transaction it referenced, and leaves no link row referencing a missing
transaction. -/
theorem claim_C1_delete_cascade (txId n : ℤ) (db : DB) :
    (∀ r ∈ (delete_transaction txId db).transactions, toIntD 0 r.id ≠ txId) ∧
    (∀ l ∈ (delete_transaction txId db).links, toIntD (-1) l.tx_id ≠ txId) ∧
    (Consistent db → Consistent (delete_transaction txId db)) ∧
    (Consistent db →
      db.links.Pairwise (fun l1 l2 => ∀ t : ℤ, l1.tx_id = intCell t → l2.tx_id ≠ intCell t) →
      (db.links.map (fun l => toIntD 0 l.n)).Nodup →
      ∃ db', delete_desafio_transaction n db = some db' ∧ Consistent db' ∧
        (∀ l ∈ db'.links, toIntD 0 l.n ≠ n) ∧
        (∀ l ∈ db.links, toIntD 0 l.n = n → ∀ t : ℤ, l.tx_id = intCell t →
          ∀ r ∈ db'.transactions, r.id ≠ intCell t)) := by
  refine ⟨delete_tx_no_tx txId db, delete_tx_no_link txId db,
    delete_tx_consistent txId db, ?_⟩
  intro hc hinj hnodup
  rcases delete_desafio_ok n db hc hinj hnodup with
    ⟨db', heq, hcons, hkey, hgone, _, _, _⟩
  exact ⟨db', heq, hcons, hkey, hgone⟩

/-- Witness for C1: on a consistent store with one link 1 -> 5 the
cascade claim applies and the delete succeeds. -/
theorem claim_C1_delete_cascade_witness :
    ∃ db', delete_desafio_transaction 1 c1WitDB = some db' ∧ Consistent db' ∧
      (∀ l ∈ db'.links, toIntD 0 l.n ≠ 1) ∧
      (∀ l ∈ c1WitDB.links, toIntD 0 l.n = 1 → ∀ t : ℤ, l.tx_id = intCell t →
        ∀ r ∈ db'.transactions, r.id ≠ intCell t) := by
  refine (claim_C1_delete_cascade 5 1 c1WitDB).2.2.2 ?_ ?_ ?_
  · intro l hl
    have : l = ⟨Cell.num 1, Cell.num 5⟩ := by
      simpa [c1WitDB] using hl
    refine ⟨5, by rw [this]; decide, c1Tx5, by simp [c1WitDB], by decide⟩
  · simp [c1WitDB]
  · decide

/-- Counterexample for C1 as stated: with two link rows referencing
transaction 5, delete_desafio_transaction 1 deletes transaction 5 but the
stale in-memory link rewrite preserves the second link 2 -> 5, which then
references a transaction that is no longer present. -/
theorem claim_C1_delete_cascade_counterexample :
    ∃ db', delete_desafio_transaction 1 c1CexDB = some db' ∧
      (∃ l ∈ db'.links, toIntD (-1) l.tx_id = 5) ∧
      (∀ r ∈ db'.transactions, toIntD 0 r.id ≠ 5) := by
  refine ⟨⟨[], [⟨Cell.num 2, Cell.num 5⟩], [], [], [], []⟩, ?_⟩
  decide

/-- C3 (confirmed).  For every target T > 0 the allocator returns the
minimal N with N*(N+1)/2 at least T (T at most the N-th triangular number
and every smaller count falls short); a target T at most 0 yields N = 1;
and the targets 1, 3, 6, 10, 15 yield 1, 2, 3, 4, 5. -/
theorem claim_C3_min_n_allocator (T : ℚ) :
    (0 < T → T ≤ triQ (min_n_for_target T) ∧
      ∀ m : ℕ, m < min_n_for_target T → triQ m < T) ∧
    (T ≤ 0 → min_n_for_target T = 1) ∧
    (min_n_for_target 1 = 1 ∧ min_n_for_target 3 = 2 ∧ min_n_for_target 6 = 3 ∧
      min_n_for_target 10 = 4 ∧ min_n_for_target 15 = 5) := by
  refine ⟨?_, ?_, ?_, ?_, ?_, ?_, ?_⟩
  · intro hT
    rcases min_n_spec T hT with ⟨_, h2, h3⟩
    exact ⟨h2, h3⟩
  · intro h
    unfold min_n_for_target
    rw [if_pos h]
  · exact min_n_value 1 1 (by norm_num) le_rfl (by norm_num [triQ]) (by norm_num [triQ])
  · exact min_n_value 3 2 (by norm_num) (by norm_num) (by norm_num [triQ]) (by norm_num [triQ])
  · exact min_n_value 6 3 (by norm_num) (by norm_num) (by norm_num [triQ]) (by norm_num [triQ])
  · exact min_n_value 10 4 (by norm_num) (by norm_num) (by norm_num [triQ]) (by norm_num [triQ])
  · exact min_n_value 15 5 (by norm_num) (by norm_num) (by norm_num [triQ]) (by norm_num [triQ])

/-- Witness for C3: at target 6 the positivity hypothesis holds and the
allocator yields the minimal count. -/
theorem claim_C3_min_n_allocator_witness :
    (0 : ℚ) < 6 ∧ ((6 : ℚ) ≤ triQ (min_n_for_target 6) ∧
      ∀ m : ℕ, m < min_n_for_target 6 → triQ m < 6) :=
  ⟨by norm_num, (claim_C3_min_n_allocator 6).1 (by norm_num)⟩

theorem retryGo_all_transient {α : Type} (fn : ℕ → PyOutcome α) (base : ℚ) :
    ∀ (rem i : ℕ) (last : Option String), 1 ≤ rem →
      (∀ j, j < rem → ∃ m, fn (i + j) = .exn m ∧ isTransientMsg m = true) →
      ∃ mlast, fn (i + rem - 1) = .exn mlast ∧ isTransientMsg mlast = true ∧
        retryGo fn base i rem last =
          ((List.range rem).map (fun j => base * 2 ^ (i + j)), .failure (some mlast))
  | 0, i, last, h1, _ => by omega
  | 1, i, last, _, hall => by
    rcases hall 0 (by omega) with ⟨m, hm, ht⟩
    rw [Nat.add_zero] at hm
    refine ⟨m, by rw [Nat.add_sub_cancel, hm], ht, ?_⟩
    rw [show List.range 1 = [0] from rfl]
    simp [retryGo, hm, ht]
  | r + 2, i, last, _, hall => by
    rcases hall 0 (by omega) with ⟨m0, hm0, ht0⟩
    rw [Nat.add_zero] at hm0
    have hall' : ∀ j, j < r + 1 → ∃ m, fn (i + 1 + j) = .exn m ∧ isTransientMsg m = true := by
      intro j hj
      rcases hall (j + 1) (by omega) with ⟨m, hm, ht⟩
      refine ⟨m, ?_, ht⟩
      rw [← hm]
      congr 1
      omega
    rcases retryGo_all_transient fn base (r + 1) (i + 1) (some m0) (by omega) hall' with
      ⟨mlast, hml, htl, heq⟩
    refine ⟨mlast, ?_, htl, ?_⟩
    · rw [← hml]; congr 1; omega
    · have hstep : retryGo fn base i (r + 2) last =
          (base * 2 ^ i :: (retryGo fn base (i + 1) (r + 1) (some m0)).1,
           (retryGo fn base (i + 1) (r + 1) (some m0)).2) := by
        simp [retryGo, hm0, ht0]
      rw [hstep, heq]
      have hlist : (base * 2 ^ i) ::
            (List.range (r + 1)).map (fun j => base * 2 ^ (i + 1 + j)) =
          (List.range (r + 2)).map (fun j => base * 2 ^ (i + j)) := by
        rw [List.range_succ_eq_map (r + 1), List.map_cons, List.map_map]
        refine congrArg₂ List.cons (by simp) ?_
        refine List.map_congr_left ?_
        intro j _
        have hexp : i + 1 + j = i + (j + 1) := by omega
        simp [Function.comp, hexp]
      rw [hlist]

/-- C7 (confirmed).  The retry executor propagates a non-transient first
error immediately with no sleep; when every attempt up to the ceiling
fails transiently it sleeps base * 2 ^ attempt before each retry and then
raises the last error; and an operation that fails transiently on the
first two attempts and succeeds on the third returns the value after
exactly the two backoff sleeps base * 2 ^ 0 and base * 2 ^ 1 (the code
adds no random jitter: the jitter term of the spec formula is zero). -/
theorem claim_C7_retry_executor {α : Type} (fn : ℕ → PyOutcome α)
    (tries : ℕ) (base : ℚ) :
    (∀ m, fn 0 = .exn m → isTransientMsg m = false → 1 ≤ tries →
      with_retry fn tries base = ([], .failure (some m))) ∧
    (1 ≤ tries →
      (∀ i, i < tries → ∃ m, fn i = .exn m ∧ isTransientMsg m = true) →
      ∃ mlast, fn (tries - 1) = .exn mlast ∧
        with_retry fn tries base =
          ((List.range tries).map (fun i => base * 2 ^ i), .failure (some mlast))) ∧
    (∀ (m0 m1 : String) (v : α), fn 0 = .exn m0 → isTransientMsg m0 = true →
      fn 1 = .exn m1 → isTransientMsg m1 = true → fn 2 = .ok v → 3 ≤ tries →
      with_retry fn tries base = ([base * 2 ^ 0, base * 2 ^ 1], .success v)) := by
  refine ⟨?_, ?_, ?_⟩
  · intro m hm ht htries
    obtain ⟨k, rfl⟩ : ∃ k, tries = k + 1 := ⟨tries - 1, by omega⟩
    unfold with_retry
    simp [retryGo, hm, ht]
  · intro htries hall
    rcases retryGo_all_transient fn base tries 0 none htries
      (by intro j hj; simpa using hall j hj) with ⟨mlast, hml, _, heq⟩
    refine ⟨mlast, by simpa using hml, ?_⟩
    unfold with_retry
    rw [heq]
    simp
  · intro m0 m1 v hm0 ht0 hm1 ht1 hv htries
    obtain ⟨k, rfl⟩ : ∃ k, tries = k + 3 := ⟨tries - 3, by omega⟩
    unfold with_retry
    have h1 : retryGo fn base 0 (k + 3) none =
        (base * 2 ^ 0 :: (retryGo fn base 1 (k + 2) (some m0)).1,
         (retryGo fn base 1 (k + 2) (some m0)).2) := by
      simp [retryGo, hm0, ht0]
    have h2 : retryGo fn base 1 (k + 2) (some m0) =
        (base * 2 ^ 1 :: (retryGo fn base 2 (k + 1) (some m1)).1,
         (retryGo fn base 2 (k + 1) (some m1)).2) := by
      simp [retryGo, hm1, ht1]
    have h3 : retryGo fn base 2 (k + 1) (some m1) = ([], .success v) := by
      simp [retryGo, hv]
    rw [h1, h2, h3]

/-- Attempt behavior for the C7 witness: a 429 rate-limit failure on the
first two attempts, then success. -/
def c7fn : ℕ → PyOutcome ℤ := fun i => if i < 2 then .exn "429" else .ok 42

/-- Witness for C7: with 5 attempts and base sleep 1 the two-transient-
failures scenario returns 42 after the two backoff sleeps. -/
theorem claim_C7_retry_executor_witness :
    with_retry c7fn 5 1 = ([1 * 2 ^ 0, 1 * 2 ^ 1], RetryRes.success 42) :=
  (claim_C7_retry_executor c7fn 5 1).2.2 "429" "429" 42 rfl (by decide) rfl
    (by decide) rfl (by omega)

/-- C10 (confirmed).  On a non-empty deposits table, reset_savings_marks_v2
zeroes every done flag while keeping the multiset of deposit indices, does
not touch overrides, goal, transactions or debts, and empties the whole
link table even though the transactions the links referenced stay. -/
theorem claim_C10_reset_marks (db : DB) (hne : db.deposits ≠ []) :
    ((reset_savings_marks_v2 db).deposits.map (fun d => toIntD 0 d.n)).Perm
        (db.deposits.map (fun d => toIntD 0 d.n)) ∧
    (∀ d ∈ (reset_savings_marks_v2 db).deposits, d.done = Cell.num 0) ∧
    (reset_savings_marks_v2 db).overrides = db.overrides ∧
    (reset_savings_marks_v2 db).goal = db.goal ∧
    (reset_savings_marks_v2 db).transactions = db.transactions ∧
    (reset_savings_marks_v2 db).debts = db.debts ∧
    (reset_savings_marks_v2 db).links = [] := by
  have hemp : db.deposits.isEmpty = false := by
    cases h : db.deposits with
    | nil => exact absurd h hne
    | cons a l => rfl
  have hdep : (reset_savings_marks_v2 db).deposits =
      (pySort depLe (db.deposits.map (fun d => { d with n := intCell (toIntD 0 d.n) }))).map
        (fun d => { d with done := Cell.num 0 }) := by
    simp [reset_savings_marks_v2, hemp]
  refine ⟨?_, ?_, ?_, ?_, ?_, ?_, ?_⟩
  · rw [hdep]
    rw [List.map_map]
    have hperm := (pySort_perm depLe
      (db.deposits.map (fun d => { d with n := intCell (toIntD 0 d.n) }))).map
      ((fun d : DepRow => toIntD 0 d.n) ∘ (fun d => { d with done := Cell.num 0 }))
    refine hperm.trans ?_
    rw [List.map_map]
    refine List.Perm.of_eq ?_
    refine List.map_congr_left ?_
    intro d _
    simp [Function.comp, toIntD_intCell]
  · rw [hdep]
    intro d hd
    rcases List.mem_map.1 hd with ⟨x, _, hx⟩
    rw [← hx]
  · simp [reset_savings_marks_v2, hemp]
  · simp [reset_savings_marks_v2, hemp]
  · simp [reset_savings_marks_v2, hemp]
  · simp [reset_savings_marks_v2, hemp]
  · simp [reset_savings_marks_v2, hemp]

/-- Store for the C10 witness: one marked deposit, one link, one
transaction. -/
def c10WitDB : DB :=
  ⟨[c1Tx5], [⟨Cell.num 1, Cell.num 5⟩], [⟨Cell.num 1, Cell.num 1⟩],
   [⟨Cell.num 1, Cell.num 7⟩], [⟨Cell.num 1, Cell.num 10, "", Cell.num 4⟩], []⟩

/-- Witness for C10: on the example store the reset empties the link
table, keeps the goal sheet, and some surviving deposit row has its done
flag zeroed. -/
theorem claim_C10_reset_marks_witness :
    (reset_savings_marks_v2 c10WitDB).links = [] ∧
    (reset_savings_marks_v2 c10WitDB).goal = c10WitDB.goal ∧
    ∃ d ∈ (reset_savings_marks_v2 c10WitDB).deposits, d.done = Cell.num 0 :=
  ⟨(claim_C10_reset_marks c10WitDB (by decide)).2.2.2.2.2.2,
   (claim_C10_reset_marks c10WitDB (by decide)).2.2.2.1,
   ⟨⟨intCell 1, Cell.num 0⟩, by decide,
    (claim_C10_reset_marks c10WitDB (by decide)).2.1 _ (by decide)⟩⟩

theorem fetch_transactions_pairwise (ds de : Option String) (db : DB) :
    (fetch_transactions ds de db).Pairwise (fun a b => txLe a b = true) := by
  unfold fetch_transactions
  by_cases h : db.transactions.isEmpty
  · simp [h]
  · have h' : db.transactions.isEmpty = false := by simpa using h
    rw [h']
    simp only [Bool.false_eq_true, if_false]
    exact pySort_pairwise txLe txLe_total txLe_trans _

theorem fetch_debts_pairwise (flag : Bool) (db : DB) :
    (fetch_debts flag db).Pairwise (fun a b => debtLe a b = true) := by
  unfold fetch_debts
  by_cases h : db.debts.isEmpty
  · simp [h]
  · have h' : db.debts.isEmpty = false := by simpa using h
    rw [h']
    simp only [Bool.false_eq_true, if_false]
    exact pySort_pairwise debtLe debtLe_total debtLe_trans _

/-- C8 (confirmed).  fetch_transactions returns its rows sorted descending
by (date, id); fetch_debts returns its rows sorted ascending by priority,
then ascending by due-date string, then descending by id, where a missing
due date surfaces as the string "nan", which sorts after every
digit-leading (ISO) date; hence within one priority no dated debt follows
an undated one. -/
theorem claim_C8_fetch_ordering (db : DB) (ds de : Option String) (flag : Bool) :
    (fetch_transactions ds de db).Pairwise (fun a b => txLe a b = true) ∧
    (fetch_debts flag db).Pairwise (fun a b => debtLe a b = true) ∧
    (∀ i j : ℕ, ∀ hi : i < (fetch_debts flag db).length,
      ∀ hj : j < (fetch_debts flag db).length, i < j →
      ((fetch_debts flag db).get ⟨i, hi⟩).prioridade =
        ((fetch_debts flag db).get ⟨j, hj⟩).prioridade →
      ((fetch_debts flag db).get ⟨i, hi⟩).vencimento = "nan" →
      isDigitHead (((fetch_debts flag db).get ⟨j, hj⟩).vencimento) = false) := by
  refine ⟨fetch_transactions_pairwise ds de db, fetch_debts_pairwise flag db, ?_⟩
  intro i j hi hj hij hp hnan
  by_contra hd
  have hR := (List.pairwise_iff_get.1 (fetch_debts_pairwise flag db)) ⟨i, hi⟩ ⟨j, hj⟩
    (by simpa using hij)
  exact debtLe_nan_blocks _ _ hR hp hnan (by simpa using hd)

/-- Store for the C8 witness: one dated and two undated debts of the same
priority. -/
def c8WitDB : DB :=
  ⟨[], [], [], [], [],
   [⟨Cell.num 1, "a", "d", Cell.num 10, "", Cell.num 1, Cell.num 0, "t"⟩,
    ⟨Cell.num 3, "c", "d", Cell.num 10, "", Cell.num 1, Cell.num 0, "t"⟩,
    ⟨Cell.num 2, "b", "d", Cell.num 10, "2025-01-01", Cell.num 1, Cell.num 0, "t"⟩]⟩

/-- Witness for C8: in the example store positions 1 and 2 of the debts
output are undated rows of the same priority, and the sentinel clause
applies to them. -/
theorem claim_C8_fetch_ordering_witness :
    isDigitHead (((fetch_debts false c8WitDB).get ⟨2, by decide⟩).vencimento) = false :=
  (claim_C8_fetch_ordering c8WitDB none none false).2.2 1 2 (by decide) (by decide)
    (by decide) (by decide) (by decide)

/-- Completely empty store. -/
def emptyDB : DB := ⟨[], [], [], [], [], []⟩

/-- C9 (amended).  add_transaction itself performs no validation: for
every input, valid or not — including a kind outside the two-value enum,
a negative amount or an empty description — it appends exactly one row
holding the normalized inputs (description and category stripped, kind
stripped and lower-cased, blank category defaulted to "Outros", the
amount and paid flag as given), and leaves every other sheet untouched.
The rejection of invalid enum values and negative amounts lives in the
UI layer, not here. -/
theorem claim_C9_add_validation (date_ description ttype : String) (amount : ℚ)
    (category : String) (paid : ℤ) (now : String) (db : DB) :
    (add_transaction date_ description ttype amount category paid now db).transactions =
      db.transactions ++
        [⟨intCell (next_id db.transactions), date_, pyStrip description,
          pyLower (pyStrip ttype), Cell.num amount,
          (if pyStrip category = "" then "Outros" else pyStrip category),
          intCell paid, now⟩] ∧
    (add_transaction date_ description ttype amount category paid
        now db).transactions.length = db.transactions.length + 1 ∧
    (add_transaction date_ description ttype amount category paid now db).links =
      db.links ∧
    (add_transaction date_ description ttype amount category paid now db).deposits =
      db.deposits ∧
    (add_transaction date_ description ttype amount category paid now db).overrides =
      db.overrides ∧
    (add_transaction date_ description ttype amount category paid now db).goal =
      db.goal ∧
    (add_transaction date_ description ttype amount category paid now db).debts =
      db.debts := by
  refine ⟨rfl, ?_, rfl, rfl, rfl, rfl, rfl⟩
  rw [show (add_transaction date_ description ttype amount category paid
        now db).transactions =
      db.transactions ++
        [⟨intCell (next_id db.transactions), date_, pyStrip description,
          pyLower (pyStrip ttype), Cell.num amount,
          (if pyStrip category = "" then "Outros" else pyStrip category),
          intCell paid, now⟩] from rfl,
    List.length_append]
  rfl

/-- Counterexample for C9 as stated: a call with the invalid kind "banana"
and the negative amount -5 is not rejected; it appends a row carrying
exactly these values, so the table changes and the persisted row violates
both invariants. -/
theorem claim_C9_add_validation_counterexample :
    (add_transaction "2025-01-01" "x" "banana" (-5) "c" 1 "t" emptyDB).transactions =
      [⟨Cell.num 1, "2025-01-01", "x", "banana", Cell.num (-5), "c", Cell.num 1, "t"⟩] ∧
    ¬("banana" = "entrada" ∨ "banana" = "saida") ∧ ((-5 : ℚ) < 0) := by decide

theorem ov_coerce_self {o : OvRow} (h : o.n.isIntCell = true) :
    ({ n := intCell (toIntD 0 o.n), amount := o.amount } : OvRow) = o := by
  rcases isIntCell_elim h with ⟨k, hk⟩
  rw [hk, toIntD_intCell, ← hk]

theorem link_coerce_self {l : LinkRow} (h : l.n.isIntCell = true) :
    ({ n := intCell (toIntD 0 l.n), tx_id := l.tx_id } : LinkRow) = l := by
  rcases isIntCell_elim h with ⟨k, hk⟩
  rw [hk, toIntD_intCell, ← hk]

theorem filterMap_ov_eq_filter (N : ℤ) :
    ∀ l : List OvRow, l.all (fun o => o.n.isIntCell) = true →
      l.filterMap (fun o =>
        let k := toIntD 0 o.n
        if k ≤ N then some { n := intCell k, amount := o.amount } else none) =
      l.filter (fun o => decide (toIntD 0 o.n ≤ N))
  | [], _ => rfl
  | o :: t, h => by
    simp only [List.all_cons, Bool.and_eq_true] at h
    rcases h with ⟨ho, ht⟩
    have ih := filterMap_ov_eq_filter N t ht
    by_cases hk : toIntD 0 o.n ≤ N
    · simp only [List.filterMap_cons, List.filter_cons, if_pos hk, decide_eq_true hk, ih,
        ov_coerce_self ho]
      simp
    · simp only [List.filterMap_cons, List.filter_cons, if_neg hk, ih]
      rw [decide_eq_false hk]
      simp

theorem filterMap_link_eq_filter (N : ℤ) :
    ∀ l : List LinkRow, l.all (fun x => x.n.isIntCell) = true →
      l.filterMap (fun x =>
        let k := toIntD 0 x.n
        if k ≤ N then some { n := intCell k, tx_id := x.tx_id } else none) =
      l.filter (fun x => decide (toIntD 0 x.n ≤ N))
  | [], _ => rfl
  | x :: t, h => by
    simp only [List.all_cons, Bool.and_eq_true] at h
    rcases h with ⟨hx, ht⟩
    have ih := filterMap_link_eq_filter N t ht
    by_cases hk : toIntD 0 x.n ≤ N
    · simp only [List.filterMap_cons, List.filter_cons, if_pos hk, decide_eq_true hk, ih,
        link_coerce_self hx]
      simp
    · simp only [List.filterMap_cons, List.filter_cons, if_neg hk, ih]
      rw [decide_eq_false hk]
      simp

theorem find?_fst_of_nodup :
    ∀ {l : List (ℤ × ℤ)}, (l.map Prod.fst).Nodup → ∀ {k v : ℤ}, (k, v) ∈ l →
      l.find? (fun p => p.1 == k) = some (k, v)
  | [], _, _, _, hm => by simp at hm
  | (a, b) :: t, hnd, k, v, hm => by
    rw [List.map_cons, List.nodup_cons] at hnd
    rcases hnd with ⟨hka, hnd⟩
    rcases List.mem_cons.1 hm with heq | hmt
    · rw [List.find?_cons]
      have hak : (a == k) = true := by
        have : a = k := by
          have := congrArg Prod.fst heq.symm
          simpa using this
        simp [this]
      rw [hak]
      exact congrArg some heq.symm
    · rw [List.find?_cons]
      have hak : (a == k) = false := by
        simp only [beq_eq_false_iff_ne, ne_eq]
        intro heq
        subst heq
        have hmem : Prod.fst (a, v) ∈ t.map Prod.fst :=
          List.mem_map_of_mem Prod.fst hmt
        exact hka hmem
      rw [hak]
      exact find?_fst_of_nodup hnd hmt

theorem existing_lookup_found (db : DB)
    (hnodup : (db.deposits.map (fun d => toIntD 0 d.n)).Nodup)
    {d : DepRow} (hd : d ∈ db.deposits) {k : ℤ} (hk : toIntD 0 d.n = k) :
    ((db.deposits.map (fun d => (toIntD 0 d.n, toIntD 0 d.done))).reverse.find?
      (fun p => p.1 == k)).map (fun p => p.2) = some (toIntD 0 d.done) := by
  have hmem : (k, toIntD 0 d.done) ∈
      (db.deposits.map (fun d => (toIntD 0 d.n, toIntD 0 d.done))).reverse := by
    rw [List.mem_reverse]
    refine List.mem_map.2 ⟨d, hd, ?_⟩
    rw [hk]
  have hnd : (((db.deposits.map (fun d => (toIntD 0 d.n, toIntD 0 d.done))).reverse).map
      Prod.fst).Nodup := by
    rw [List.map_reverse, List.nodup_reverse, List.map_map]
    exact hnodup
  rw [find?_fst_of_nodup hnd hmem]
  rfl

theorem existing_lookup_absent (db : DB) {k : ℤ}
    (habs : ∀ d ∈ db.deposits, toIntD 0 d.n ≠ k) :
    (db.deposits.map (fun d => (toIntD 0 d.n, toIntD 0 d.done))).reverse.find?
      (fun p => p.1 == k) = none := by
  rw [List.find?_eq_none]
  intro p hp
  rw [List.mem_reverse] at hp
  rcases List.mem_map.1 hp with ⟨d, hd, hpd⟩
  subst hpd
  simpa using habs d hd

/-- Deposit row i (0-based) written by set_savings_goal_v2: index i+1 with
the done flag looked up in the prior table (last row wins, default 0). -/
def depRowFor (db : DB) (i : ℕ) : DepRow :=
  { n := intCell ((i : ℤ) + 1),
    done := intCell ((((db.deposits.map
      (fun d => (toIntD 0 d.n, toIntD 0 d.done))).reverse.find?
        (fun p => p.1 == (i : ℤ) + 1)).map (fun p => p.2)).getD 0) }

theorem set_goal_deposits_eq (target : ℚ) (due : Option String) (db : DB) :
    (set_savings_goal_v2 target due db).deposits =
      (List.range (min_n_for_target target)).map (depRowFor db) := rfl

/-- C2 (confirmed).  set_savings_goal_v2 recomputes N, rewrites the goal
singleton to (1, target, due, N), rebuilds the deposits table as exactly
the rows 1..N where an index that already existed keeps its (coerced)
done flag and a new index starts at 0, and keeps exactly the override and
link rows with index at most N, discarding the rest; transactions and
debts are untouched.  The hypotheses are the well-formedness of the prior
tables (integer index cells, unique deposit indices). -/
theorem claim_C2_set_goal_reconcile (target : ℚ) (due : Option String) (db : DB)
    (hnodup : (db.deposits.map (fun d => toIntD 0 d.n)).Nodup)
    (hov : db.overrides.all (fun o => o.n.isIntCell) = true)
    (hlink : db.links.all (fun l => l.n.isIntCell) = true) :
    (set_savings_goal_v2 target due db).goal =
      [⟨Cell.num 1, Cell.num target, due.getD "",
        Cell.num ((min_n_for_target target : ℕ) : ℚ)⟩] ∧
    (set_savings_goal_v2 target due db).deposits.map (fun d => d.n) =
      (List.range (min_n_for_target target)).map (fun (i : ℕ) => intCell ((i : ℤ) + 1)) ∧
    (∀ i : ℕ, i < min_n_for_target target → ∀ d ∈ db.deposits,
      toIntD 0 d.n = (i : ℤ) + 1 →
      (set_savings_goal_v2 target due db).deposits.get? i =
        some ⟨intCell ((i : ℤ) + 1), intCell (toIntD 0 d.done)⟩) ∧
    (∀ i : ℕ, i < min_n_for_target target →
      (∀ d ∈ db.deposits, toIntD 0 d.n ≠ (i : ℤ) + 1) →
      (set_savings_goal_v2 target due db).deposits.get? i =
        some ⟨intCell ((i : ℤ) + 1), intCell 0⟩) ∧
    (set_savings_goal_v2 target due db).overrides =
      db.overrides.filter (fun o => decide (toIntD 0 o.n ≤ (min_n_for_target target : ℤ))) ∧
    (set_savings_goal_v2 target due db).links =
      db.links.filter (fun l => decide (toIntD 0 l.n ≤ (min_n_for_target target : ℤ))) ∧
    (set_savings_goal_v2 target due db).transactions = db.transactions ∧
    (set_savings_goal_v2 target due db).debts = db.debts := by
  refine ⟨rfl, ?_, ?_, ?_, ?_, ?_, rfl, rfl⟩
  · rw [set_goal_deposits_eq, List.map_map]
    rfl
  · intro i hi d hd hdn
    rw [set_goal_deposits_eq, List.get?_map, List.get?_range hi]
    show some (depRowFor db i) = _
    unfold depRowFor
    rw [existing_lookup_found db hnodup hd hdn]
    rfl
  · intro i hi habs
    rw [set_goal_deposits_eq, List.get?_map, List.get?_range hi]
    show some (depRowFor db i) = _
    unfold depRowFor
    rw [existing_lookup_absent db habs]
    rfl
  · exact filterMap_ov_eq_filter (min_n_for_target target : ℤ) db.overrides hov
  · exact filterMap_link_eq_filter (min_n_for_target target : ℤ) db.links hlink

/-- Store for the C2 witness: two marked deposits (indices 1 and 5), two
overrides (indices 2 and 9), two links (indices 3 and 8). -/
def c2WitDB : DB :=
  ⟨[], [⟨Cell.num 3, Cell.num 3⟩, ⟨Cell.num 8, Cell.num 3⟩],
   [⟨Cell.num 1, Cell.num 1⟩, ⟨Cell.num 5, Cell.num 0⟩],
   [⟨Cell.num 2, Cell.num 7⟩, ⟨Cell.num 9, Cell.num 7⟩], [], []⟩

/-- Witness for C2: setting a goal of 10 on the example store keeps
exactly the override rows with index at most N = 4. -/
theorem claim_C2_set_goal_reconcile_witness :
    (set_savings_goal_v2 10 none c2WitDB).overrides =
      c2WitDB.overrides.filter
        (fun o => decide (toIntD 0 o.n ≤ (min_n_for_target 10 : ℤ))) :=
  (claim_C2_set_goal_reconcile 10 none c2WitDB (by decide) (by decide)
    (by decide)).2.2.2.2.1

theorem map_coerce_tx_eq_self {rows : List TxRow}
    (hwf : rows.all (fun r => r.id.isIntCell) = true) :
    rows.map (fun r => { r with id := intCell (toIntD 0 r.id) }) = rows := by
  have h : ∀ r ∈ rows, ({ r with id := intCell (toIntD 0 r.id) } : TxRow) = id r := by
    intro r hr
    exact coerce_tx_self (List.all_eq_true.1 hwf r hr)
  rw [List.map_congr_left h, List.map_id]

theorem updStep_ids (acc : List TxRow) (u : UpdRow) :
    (updStep acc u).map (fun r => toIntD 0 r.id) = acc.map (fun r => toIntD 0 r.id) := by
  by_cases h : acc.any (fun r => toIntD 0 r.id == toIntD 0 u.id) = true
  · simp only [updStep, h, if_true, List.map_map]
    refine List.map_congr_left ?_
    intro r _
    simp only [Function.comp]
    split
    · rfl
    · rfl
  · have h' : acc.any (fun r => toIntD 0 r.id == toIntD 0 u.id) = false := by
      simpa using h
    simp only [updStep, h']
    rw [if_neg (by simp)]

theorem foldl_updStep_ids :
    ∀ (updates : List UpdRow) (acc : List TxRow),
      (updates.foldl updStep acc).map (fun r => toIntD 0 r.id) =
        acc.map (fun r => toIntD 0 r.id)
  | [], _ => rfl
  | u :: us, acc => by
    rw [List.foldl_cons]
    rw [foldl_updStep_ids us (updStep acc u)]
    exact updStep_ids acc u

theorem updStep_nomatch {acc : List TxRow} {u : UpdRow}
    (h : ∀ r ∈ acc, toIntD 0 u.id ≠ toIntD 0 r.id) : updStep acc u = acc := by
  have hany : acc.any (fun r => toIntD 0 r.id == toIntD 0 u.id) = false := by
    rw [List.any_eq_false]
    intro r hr
    simp only [beq_iff_eq]
    exact fun he => (h r hr) he.symm
  simp only [updStep, hany]
  rw [if_neg (by simp)]

theorem foldl_updStep_nomatch :
    ∀ (updates : List UpdRow) (acc : List TxRow),
      (∀ u ∈ updates, ∀ r ∈ acc, toIntD 0 u.id ≠ toIntD 0 r.id) →
      updates.foldl updStep acc = acc
  | [], _, _ => rfl
  | u :: us, acc, h => by
    rw [List.foldl_cons]
    have hs : updStep acc u = acc := updStep_nomatch (h u (List.mem_cons_self u us))
    rw [hs]
    exact foldl_updStep_nomatch us acc (fun v hv => h v (List.mem_cons_of_mem u hv))

theorem updStep_eq_map (acc : List TxRow) (u : UpdRow) :
    updStep acc u =
      acc.map (fun r => if toIntD 0 r.id = toIntD 0 u.id then applyUpd u r else r) := by
  by_cases h : acc.any (fun r => toIntD 0 r.id == toIntD 0 u.id) = true
  · simp only [updStep, h, if_true]
    refine List.map_congr_left ?_
    intro r _
    by_cases hr : toIntD 0 r.id = toIntD 0 u.id
    · rw [if_pos (by simpa using hr), if_pos hr]
    · rw [if_neg (by simpa using hr), if_neg hr]
  · have h' : acc.any (fun r => toIntD 0 r.id == toIntD 0 u.id) = false := by
      simpa using h
    have hall := List.any_eq_false.1 h'
    simp only [updStep, h']
    rw [if_neg (by simp)]
    have hmap : ∀ r ∈ acc,
        (if toIntD 0 r.id = toIntD 0 u.id then applyUpd u r else r) = id r := by
      intro r hr
      rw [if_neg (by simpa using hall r hr)]
      rfl
    rw [List.map_congr_left hmap, List.map_id]

theorem update_bulk_eq (updates : List UpdRow) (db : DB)
    (hu : updates.isEmpty = false) (ht : db.transactions.isEmpty = false) :
    update_transactions_bulk updates db =
      ({ db with transactions :=
          updates.foldl updStep (db.transactions.map
            (fun r => { r with id := intCell (toIntD 0 r.id) })) }, 1) := by
  simp [update_transactions_bulk, hu, ht]

theorem fetch_none_none_eq (db : DB) (h : db.transactions.isEmpty = false) :
    fetch_transactions none none db = pySort txLe (db.transactions.map parseTxRow) := by
  simp [fetch_transactions, h]

/-- The cumulative effect of a whole update batch on one table row whose
coerced id is i: every batch row carrying id i overwrites the mutable
fields in order, everything else is skipped.  This is the per-row view
of the update loop of update_transactions_bulk. -/
def applyUpdates (updates : List UpdRow) (i : ℤ) (r : TxRow) : TxRow :=
  updates.foldl (fun s u => if i = toIntD 0 u.id then applyUpd u s else s) r

theorem applyUpdates_nil (i : ℤ) (r : TxRow) : applyUpdates [] i r = r := rfl

theorem applyUpdates_cons (u : UpdRow) (us : List UpdRow) (i : ℤ) (r : TxRow) :
    applyUpdates (u :: us) i r =
      applyUpdates us i (if i = toIntD 0 u.id then applyUpd u r else r) := rfl

theorem applyUpdates_id : ∀ (updates : List UpdRow) (i : ℤ) (r : TxRow),
    (applyUpdates updates i r).id = r.id
  | [], _, _ => rfl
  | u :: us, i, r => by
    rw [applyUpdates_cons, applyUpdates_id us i _]
    by_cases h : i = toIntD 0 u.id
    · rw [if_pos h]
      rfl
    · rw [if_neg h]

theorem applyUpdates_append (l1 l2 : List UpdRow) (i : ℤ) (r : TxRow) :
    applyUpdates (l1 ++ l2) i r = applyUpdates l2 i (applyUpdates l1 i r) := by
  unfold applyUpdates
  rw [List.foldl_append]

theorem applyUpdates_nomatch : ∀ (updates : List UpdRow) (i : ℤ) (r : TxRow),
    (∀ v ∈ updates, toIntD 0 v.id ≠ i) → applyUpdates updates i r = r
  | [], _, _, _ => rfl
  | u :: us, i, r, h => by
    rw [applyUpdates_cons, if_neg (fun he => (h u (List.mem_cons_self u us)) he.symm),
      applyUpdates_nomatch us i r (fun v hv => h v (List.mem_cons_of_mem u hv))]

theorem applyUpdates_last (l1 l2 : List UpdRow) (u : UpdRow) (i : ℤ) (r : TxRow)
    (hui : toIntD 0 u.id = i) (hl2 : ∀ v ∈ l2, toIntD 0 v.id ≠ i) :
    applyUpdates (l1 ++ u :: l2) i r = applyUpd u (applyUpdates l1 i r) := by
  rw [applyUpdates_append, applyUpdates_cons, if_pos hui.symm,
    applyUpdates_nomatch l2 i _ hl2]

theorem foldl_updStep_eq : ∀ (updates : List UpdRow) (acc : List TxRow),
    updates.foldl updStep acc =
      acc.map (fun r => applyUpdates updates (toIntD 0 r.id) r)
  | [], acc => by
    simp [applyUpdates]
  | u :: us, acc => by
    rw [List.foldl_cons, updStep_eq_map, foldl_updStep_eq us _, List.map_map]
    refine List.map_congr_left ?_
    intro r _
    simp only [Function.comp]
    have hid : toIntD 0
        ((if toIntD 0 r.id = toIntD 0 u.id then applyUpd u r else r)).id =
        toIntD 0 r.id := by
      by_cases h : toIntD 0 r.id = toIntD 0 u.id
      · rw [if_pos h]
        rfl
      · rw [if_neg h]
    rw [hid, applyUpdates_cons]

/-- C6 (confirmed).  On a well-formed table (integer id cells) and a
non-degenerate call, update_transactions_bulk rewrites the table exactly
once, and the new table is exactly the old one with every row rewritten
by the batch-fold applyUpdates at its own id: ids are preserved in place
(no inserts, no deletes, no reorder), a batch whose ids all miss the
table leaves the contents unchanged, each batch row whose id matches a
table row and is the last batch row with that id overwrites every
mutable field (date, description, type, amount, category, paid) of that
row in place with its normalized values, and the updated amount is
visible through fetch_transactions. -/
theorem claim_C6_update_bulk (updates : List UpdRow) (db : DB)
    (hu : updates ≠ []) (ht : db.transactions ≠ [])
    (hwf : db.transactions.all (fun r => r.id.isIntCell) = true) :
    (update_transactions_bulk updates db).2 = 1 ∧
    (update_transactions_bulk updates db).1.transactions =
      db.transactions.map (fun r => applyUpdates updates (toIntD 0 r.id) r) ∧
    (update_transactions_bulk updates db).1.transactions.map (fun r => toIntD 0 r.id) =
      db.transactions.map (fun r => toIntD 0 r.id) ∧
    ((∀ u ∈ updates, ∀ r ∈ db.transactions, toIntD 0 u.id ≠ toIntD 0 r.id) →
      (update_transactions_bulk updates db).1.transactions = db.transactions) ∧
    (∀ (l1 l2 : List UpdRow) (u : UpdRow), updates = l1 ++ u :: l2 →
      (∀ v ∈ l2, toIntD 0 v.id ≠ toIntD 0 u.id) →
      ∀ r ∈ db.transactions, toIntD 0 r.id = toIntD 0 u.id →
        applyUpdates updates (toIntD 0 r.id) r ∈
          (update_transactions_bulk updates db).1.transactions ∧
        (applyUpdates updates (toIntD 0 r.id) r).id = r.id ∧
        (applyUpdates updates (toIntD 0 r.id) r).date = u.date ∧
        (applyUpdates updates (toIntD 0 r.id) r).description = pyStrip u.description ∧
        (applyUpdates updates (toIntD 0 r.id) r).ttype = pyLower (pyStrip u.ttype) ∧
        (applyUpdates updates (toIntD 0 r.id) r).amount = Cell.num u.amount ∧
        (applyUpdates updates (toIntD 0 r.id) r).category =
          (if pyStrip u.category = "" then "Outros" else pyStrip u.category) ∧
        (applyUpdates updates (toIntD 0 r.id) r).paid = Cell.num (u.paid : ℚ)) ∧
    (∀ (l1 l2 : List UpdRow) (u : UpdRow), updates = l1 ++ u :: l2 →
      (∀ v ∈ l2, toIntD 0 v.id ≠ toIntD 0 u.id) →
      (∃ r ∈ db.transactions, toIntD 0 r.id = toIntD 0 u.id) →
      ∃ f ∈ fetch_transactions none none (update_transactions_bulk updates db).1,
        f.id = toIntD 0 u.id ∧ f.amount = u.amount) := by
  have hu' : updates.isEmpty = false := by
    cases updates with
    | nil => exact absurd rfl hu
    | cons a l => rfl
  have ht' : db.transactions.isEmpty = false := by
    cases h : db.transactions with
    | nil => exact absurd h ht
    | cons a l => rfl
  have hco := map_coerce_tx_eq_self hwf
  have heq := update_bulk_eq updates db hu' ht'
  have htx : (update_transactions_bulk updates db).1.transactions =
      updates.foldl updStep db.transactions := by
    rw [heq, hco]
  have hchar : (update_transactions_bulk updates db).1.transactions =
      db.transactions.map (fun r => applyUpdates updates (toIntD 0 r.id) r) := by
    rw [htx]
    exact foldl_updStep_eq updates db.transactions
  have hrowfact : ∀ (l1 l2 : List UpdRow) (u : UpdRow), updates = l1 ++ u :: l2 →
      (∀ v ∈ l2, toIntD 0 v.id ≠ toIntD 0 u.id) →
      ∀ r : TxRow, toIntD 0 r.id = toIntD 0 u.id →
      applyUpdates updates (toIntD 0 r.id) r =
        applyUpd u (applyUpdates l1 (toIntD 0 r.id) r) := by
    intro l1 l2 u hsplit hlast r hrid
    rw [hsplit]
    refine applyUpdates_last l1 l2 u (toIntD 0 r.id) r hrid.symm ?_
    intro v hv
    rw [hrid]
    exact hlast v hv
  refine ⟨by rw [heq], hchar, ?_, ?_, ?_, ?_⟩
  · rw [htx]
    exact foldl_updStep_ids updates db.transactions
  · intro hno
    rw [htx]
    exact foldl_updStep_nomatch updates db.transactions hno
  · intro l1 l2 u hsplit hlast r hr hrid
    have heqrow := hrowfact l1 l2 u hsplit hlast r hrid
    refine ⟨?_, ?_, ?_, ?_, ?_, ?_, ?_, ?_⟩
    · rw [hchar]
      exact List.mem_map_of_mem _ hr
    · exact applyUpdates_id updates (toIntD 0 r.id) r
    · rw [heqrow]
      rfl
    · rw [heqrow]
      rfl
    · rw [heqrow]
      rfl
    · rw [heqrow]
      rfl
    · rw [heqrow]
      rfl
    · rw [heqrow]
      rfl
  · intro l1 l2 u hsplit hlast hex
    rcases hex with ⟨r, hr, hrid⟩
    have heqrow := hrowfact l1 l2 u hsplit hlast r hrid
    have hmem : applyUpdates updates (toIntD 0 r.id) r ∈
        (update_transactions_bulk updates db).1.transactions := by
      rw [hchar]
      exact List.mem_map_of_mem _ hr
    have hne : (update_transactions_bulk updates db).1.transactions.isEmpty = false := by
      cases h : (update_transactions_bulk updates db).1.transactions with
      | nil => rw [h] at hmem; simp at hmem
      | cons a l => rfl
    refine ⟨parseTxRow (applyUpdates updates (toIntD 0 r.id) r), ?_, ?_, ?_⟩
    · rw [fetch_none_none_eq _ hne]
      rw [(pySort_perm txLe _).mem_iff]
      exact List.mem_map_of_mem parseTxRow hmem
    · show toIntD 0 (applyUpdates updates (toIntD 0 r.id) r).id = toIntD 0 u.id
      rw [applyUpdates_id updates (toIntD 0 r.id) r]
      exact hrid
    · show toNumD 0 (applyUpdates updates (toIntD 0 r.id) r).amount = u.amount
      rw [heqrow]
      rfl

/-- Transaction row with id 7 used by the C6 witness. -/
def c6Tx : TxRow :=
  ⟨Cell.num 7, "2025-01-01", "d", "entrada", Cell.num 5, "c", Cell.num 1, "t"⟩

/-- Batch row updating id 7 to amount 42.5 used by the C6 witness. -/
def c6Upd : UpdRow := ⟨Cell.num 7, "2025-02-02", "d2", "saida", 85 / 2, "c2", 0⟩

/-- Second batch row of the C6 witness, whose id 99 matches no table row
and is silently ignored. -/
def c6Upd2 : UpdRow := ⟨Cell.num 99, "2025-03-03", "d3", "entrada", 1, "c3", 1⟩

/-- Store for the C6 witness. -/
def c6WitDB : DB := ⟨[c6Tx], [], [], [], [], []⟩

/-- Witness for C6: a two-row batch updating id 7 to amount 42.5 (its
second row missing the table) makes fetch_transactions show id 7 with
amount 42.5. -/
theorem claim_C6_update_bulk_witness :
    ∃ f ∈ fetch_transactions none none
        (update_transactions_bulk [c6Upd, c6Upd2] c6WitDB).1,
      f.id = toIntD 0 c6Upd.id ∧ f.amount = c6Upd.amount :=
  (claim_C6_update_bulk [c6Upd, c6Upd2] c6WitDB (by decide) (by decide)
    (by decide)).2.2.2.2.2 [] [c6Upd2] c6Upd rfl (by decide)
    ⟨c6Tx, by decide, by decide⟩

theorem fetch_some_some_eq (ds de : String) (db : DB)
    (hne : db.transactions.isEmpty = false) (hds : ds ≠ "") (hde : de ≠ "") :
    fetch_transactions (some ds) (some de) db =
      pySort txLe (((db.transactions.map parseTxRow).filter
        (fun r => !(clt r.date.data ds.data))).filter
        (fun r => !(clt de.data r.date.data))) := by
  simp [fetch_transactions, hne, hds, hde]

/-- C5 (amended).  For a valid input (kind one of the two enum values,
non-empty date, non-empty range bounds) over a well-formed table
(nonnegative numeric ids), add_transaction followed by
fetch_transactions over a range containing the date returns exactly one
row carrying the fresh id, and its fields are the inputs after
normalization: description and category stripped, kind stripped and
lower-cased, and a blank category defaulted to "Outros".  The default
label is the Portuguese "Outros", not "Other" as the spec states. -/
theorem claim_C5_add_fetch_roundtrip
    (date_ description ttype : String) (amount : ℚ) (category : String)
    (paid : ℤ) (now ds de : String) (db : DB)
    (hty : ttype = "entrada" ∨ ttype = "saida")
    (hdate : date_ ≠ "")
    (hds : ds ≠ "") (hde : de ≠ "")
    (hd1 : clt date_.data ds.data = false)
    (hd2 : clt de.data date_.data = false)
    (hwf : db.transactions.all (fun r => r.id.nonnegIfNum) = true) :
    (fetch_transactions (some ds) (some de)
        (add_transaction date_ description ttype amount category paid now db)).filter
        (fun f => f.id == next_id db.transactions) =
      [⟨next_id db.transactions, date_, pyStrip description, pyLower (pyStrip ttype),
        amount, if pyStrip category = "" then "Outros" else pyStrip category, paid⟩] := by
  have hadd : (add_transaction date_ description ttype amount category paid now db).transactions =
      db.transactions ++
        [⟨intCell (next_id db.transactions), date_, pyStrip description,
          pyLower (pyStrip ttype), Cell.num amount,
          (if pyStrip category = "" then "Outros" else pyStrip category),
          intCell paid, now⟩] := rfl
  have hne1 : (add_transaction date_ description ttype amount category paid
      now db).transactions.isEmpty = false := by
    rw [hadd]
    cases db.transactions <;> rfl
  have hty2 : pyLower (pyStrip (readStr (pyLower (pyStrip ttype)))) =
      pyLower (pyStrip ttype) := by
    rcases hty with h | h <;> subst h <;> decide
  have hcat2 : readStr (if pyStrip category = "" then "Outros" else pyStrip category) =
      (if pyStrip category = "" then "Outros" else pyStrip category) := by
    by_cases hcat : pyStrip category = ""
    · rw [if_pos hcat]; decide
    · rw [if_neg hcat]
      simp [readStr, hcat]
  have hdate2 : readStr date_ = date_ := by simp [readStr, hdate]
  have hparse : parseTxRow
      ⟨intCell (next_id db.transactions), date_, pyStrip description,
        pyLower (pyStrip ttype), Cell.num amount,
        (if pyStrip category = "" then "Outros" else pyStrip category),
        intCell paid, now⟩ =
      ⟨next_id db.transactions, date_, pyStrip description, pyLower (pyStrip ttype),
        amount, if pyStrip category = "" then "Outros" else pyStrip category, paid⟩ := by
    simp only [parseTxRow, toIntD_intCell, toNumD_num, hty2, hcat2, hdate2]
  rw [fetch_some_some_eq ds de _ hne1 hds hde, hadd, List.map_append,
    List.map_cons, List.map_nil, hparse]
  have h1 : List.filter (fun r : FetchedTx => !(clt r.date.data ds.data))
      [⟨next_id db.transactions, date_, pyStrip description, pyLower (pyStrip ttype),
        amount, if pyStrip category = "" then "Outros" else pyStrip category, paid⟩] =
      [⟨next_id db.transactions, date_, pyStrip description, pyLower (pyStrip ttype),
        amount, if pyStrip category = "" then "Outros" else pyStrip category, paid⟩] := by
    simp [hd1]
  have h2 : List.filter (fun r : FetchedTx => !(clt de.data r.date.data))
      [⟨next_id db.transactions, date_, pyStrip description, pyLower (pyStrip ttype),
        amount, if pyStrip category = "" then "Outros" else pyStrip category, paid⟩] =
      [⟨next_id db.transactions, date_, pyStrip description, pyLower (pyStrip ttype),
        amount, if pyStrip category = "" then "Outros" else pyStrip category, paid⟩] := by
    simp [hd2]
  rw [List.filter_append, h1, List.filter_append, h2]
  have hold : (((db.transactions.map parseTxRow).filter
      (fun r => !(clt r.date.data ds.data))).filter
      (fun r => !(clt de.data r.date.data))).filter
      (fun f => f.id == next_id db.transactions) = [] := by
    rw [List.filter_eq_nil_iff]
    intro f hf
    have hf0 : f ∈ db.transactions.map parseTxRow :=
      (List.mem_filter.1 (List.mem_filter.1 hf).1).1
    rcases List.mem_map.1 hf0 with ⟨r, hr, hfr⟩
    have hlt := toIntD_lt_next_id db.transactions hwf r hr
    have hfid : f.id = toIntD 0 r.id := by rw [← hfr]; rfl
    simp only [beq_iff_eq, Bool.not_eq_true, decide_eq_false_iff_not]
    intro hcontra
    rw [hfid] at hcontra
    omega
  have hperm : ((pySort txLe ((((db.transactions.map parseTxRow).filter
      (fun r => !(clt r.date.data ds.data))).filter
      (fun r => !(clt de.data r.date.data))) ++
      [⟨next_id db.transactions, date_, pyStrip description, pyLower (pyStrip ttype),
        amount, if pyStrip category = "" then "Outros" else pyStrip category,
        paid⟩])).filter (fun f => f.id == next_id db.transactions)).Perm
      [⟨next_id db.transactions, date_, pyStrip description, pyLower (pyStrip ttype),
        amount, if pyStrip category = "" then "Outros" else pyStrip category, paid⟩] := by
    have hp := List.Perm.filter (fun f : FetchedTx => f.id == next_id db.transactions)
      (pySort_perm txLe ((((db.transactions.map parseTxRow).filter
        (fun r => !(clt r.date.data ds.data))).filter
        (fun r => !(clt de.data r.date.data))) ++
        [⟨next_id db.transactions, date_, pyStrip description, pyLower (pyStrip ttype),
          amount, if pyStrip category = "" then "Outros" else pyStrip category, paid⟩]))
    rw [List.filter_append, hold, List.nil_append] at hp
    simpa using hp
  exact List.perm_singleton.1 hperm

/-- Witness for C5: a valid inflow of 5 with a non-blank category on the
empty store round-trips through fetch with its normalized fields. -/
theorem claim_C5_add_fetch_roundtrip_witness :
    (fetch_transactions (some "2025-01-01") (some "2025-12-31")
        (add_transaction "2025-06-01" "mercado" "entrada" 5 "Casa" 1 "t" emptyDB)).filter
        (fun f => f.id == next_id emptyDB.transactions) =
      [⟨next_id emptyDB.transactions, "2025-06-01", pyStrip "mercado",
        pyLower (pyStrip "entrada"), 5,
        if pyStrip "Casa" = "" then "Outros" else pyStrip "Casa", 1⟩] :=
  claim_C5_add_fetch_roundtrip "2025-06-01" "mercado" "entrada" 5 "Casa" 1 "t"
    "2025-01-01" "2025-12-31" emptyDB (Or.inl rfl) (by decide) (by decide) (by decide)
    (by decide) (by decide) (by decide)

/-- Counterexample for C5 as stated: adding a row with a blank category
and fetching it back yields the category "Outros", the code's default
label, which is not the spec's "Other". -/
theorem claim_C5_add_fetch_roundtrip_counterexample :
    ((fetch_transactions (some "2025-01-01") (some "2025-12-31")
        (add_transaction "2025-06-01" "x" "entrada" 5 " " 1 "t" emptyDB)).map
        (fun f => f.category) = ["Outros"]) ∧ ("Outros" : String) ≠ "Other" := by
  exact ⟨by decide, by decide⟩

theorem writeLinks_wf (links : List LinkRow)
    (h : links.all (fun l => l.n.isIntCell && l.tx_id.isIntCell) = true) :
    writeLinks links = some links := by
  induction links with
  | nil => rfl
  | cons l t ih =>
    simp only [List.all_cons, Bool.and_eq_true] at h
    rcases isIntCell_elim h.1.1 with ⟨a, ha⟩
    rcases isIntCell_elim h.1.2 with ⟨b, hb⟩
    have hl : ({ n := intCell a, tx_id := intCell b } : LinkRow) = l := by
      rw [← ha, ← hb]
    have hrec : writeLinks t = some t := ih h.2
    simp [writeLinks, ha, hb, cellIntFloat_intCell, hrec, hl]

theorem map_coerce_links_eq_self {links : List LinkRow}
    (h : links.all (fun l => l.n.isIntCell && l.tx_id.isIntCell) = true) :
    links.map (fun l => { l with n := intCell (toIntD 0 l.n) }) = links := by
  have hpt : ∀ l ∈ links, ({ l with n := intCell (toIntD 0 l.n) } : LinkRow) = l := by
    intro l hl
    have hx := List.all_eq_true.1 h l hl
    simp only [Bool.and_eq_true] at hx
    exact link_coerce_self hx.1
  calc links.map (fun l => { l with n := intCell (toIntD 0 l.n) })
      = links.map id := List.map_congr_left hpt
    _ = links := List.map_id links

theorem find?_key_append {α : Type} {p : α → Bool} :
    ∀ {l1 : List α} (l2 : List α), (∀ x ∈ l1, p x = false) →
      (l1 ++ l2).find? p = l2.find? p
  | [], _, _ => rfl
  | a :: t, l2, h => by
    have ha : p a = false := h a (List.mem_cons_self a t)
    rw [List.cons_append, List.find?_cons, ha]
    exact find?_key_append l2 (fun x hx => h x (List.mem_cons_of_mem a hx))

theorem create_desafio_found (date_ : String) (n : ℤ) (amount : ℚ) (now : String)
    (db : DB) (row : LinkRow) (t : ℤ)
    (h1 : db.links.isEmpty = false)
    (h2 : (db.links.map (fun l => { l with n := intCell (toIntD 0 l.n) })).find?
      (fun l => toIntD 0 l.n == n) = some row)
    (h3 : row.tx_id.isNonBlank = true)
    (h4 : cellIntFloat row.tx_id = some t) :
    create_desafio_transaction date_ n amount now db = some (t, db) := by
  simp [create_desafio_transaction, h1, h2, h3, h4]

theorem create_desafio_no_link (date_ : String) (n : ℤ) (amount : ℚ) (now : String)
    (db : DB) (hfresh : ∀ l ∈ db.links, toIntD 0 l.n ≠ n) :
    create_desafio_transaction date_ n amount now db =
      createDesafioPath date_ n amount now db := by
  by_cases hemp : db.links.isEmpty = true
  · simp [create_desafio_transaction, hemp]
  · have hemp' : db.links.isEmpty = false := by simpa using hemp
    have hfind : (db.links.map (fun l => { l with n := intCell (toIntD 0 l.n) })).find?
        (fun l => toIntD 0 l.n == n) = none := by
      rw [List.find?_eq_none]
      intro x hx
      rcases List.mem_map.1 hx with ⟨l, hl, hleq⟩
      have hkey := hfresh l hl
      rw [← hleq]
      simp [toIntD_intCell, hkey]
    simp [create_desafio_transaction, hemp', hfind]

theorem createDesafioPath_eq (date_ : String) (n : ℤ) (amount : ℚ) (now : String)
    (db : DB)
    (hlwf : db.links.all (fun l => l.n.isIntCell && l.tx_id.isIntCell) = true)
    (hwf : db.transactions.all (fun r => r.id.nonnegIfNum) = true) :
    createDesafioPath date_ n amount now db =
      some (next_id db.transactions,
        { add_transaction date_ ("Desafio - Depósito #" ++ toString n) "entrada"
            amount "Desafio" 1 now db with
          links := db.links ++ [⟨intCell n, intCell (next_id db.transactions)⟩] }) := by
  set db1 := add_transaction date_ ("Desafio - Depósito #" ++ toString n) "entrada"
    amount "Desafio" 1 now db with hdb1
  obtain ⟨row, hrow_tx, hrow_id⟩ : ∃ row : TxRow,
      db1.transactions = db.transactions ++ [row] ∧
      row.id = intCell (next_id db.transactions) :=
    ⟨_, rfl, rfl⟩
  have hne1 : db1.transactions.isEmpty = false := by
    rw [hrow_tx]
    cases db.transactions <;> rfl
  have hperm : ((fetch_transactions none none db1).map (fun f => f.id)).Perm
      (db1.transactions.map (fun r => toIntD 0 r.id)) := by
    rw [fetch_none_none_eq db1 hne1]
    have h1 : ((pySort txLe (db1.transactions.map parseTxRow)).map
        (fun f => f.id)).Perm
        ((db1.transactions.map parseTxRow).map (fun f => f.id)) :=
      (pySort_perm txLe _).map _
    have h2 : (db1.transactions.map parseTxRow).map (fun f => f.id) =
        db1.transactions.map (fun r => toIntD 0 r.id) := by
      rw [List.map_map]
      rfl
    rw [h2] at h1
    exact h1
  have hnidmem : next_id db.transactions ∈
      (fetch_transactions none none db1).map (fun f => f.id) := by
    rw [hperm.mem_iff, hrow_tx, List.map_append]
    refine List.mem_append_right _ ?_
    simp [hrow_id, toIntD_intCell]
  have hub : ∀ x ∈ (fetch_transactions none none db1).map (fun f => f.id),
      x ≤ next_id db.transactions := by
    intro x hx
    rw [hperm.mem_iff, hrow_tx, List.map_append] at hx
    rcases List.mem_append.1 hx with h | h
    · rcases List.mem_map.1 h with ⟨r, hr, hrx⟩
      have hlt := toIntD_lt_next_id db.transactions hwf r hr
      omega
    · have hxx : x = toIntD 0 row.id := by simpa using h
      rw [hxx, hrow_id, toIntD_intCell]
  have hbase : (if db.links.isEmpty then []
      else db.links.map (fun l => { l with n := intCell (toIntD 0 l.n) })) =
      db.links := by
    by_cases hemp : db.links.isEmpty = true
    · rw [if_pos hemp, List.isEmpty_iff.1 hemp]
    · rw [if_neg hemp]
      exact map_coerce_links_eq_self hlwf
  have hwrite : writeLinks (db.links ++
      [⟨intCell n, intCell (next_id db.transactions)⟩]) =
      some (db.links ++ [⟨intCell n, intCell (next_id db.transactions)⟩]) := by
    refine writeLinks_wf _ ?_
    rw [List.all_append, hlwf]
    simp [intCell_isIntCell]
  cases hids : (fetch_transactions none none db1).map (fun f => f.id) with
  | nil =>
    rw [hids] at hnidmem
    simp at hnidmem
  | cons a t =>
    rw [hids] at hnidmem hub
    have htid : maxZ a t = next_id db.transactions := by
      have hle1 : next_id db.transactions ≤ maxZ a t :=
        le_maxZ t a _ (List.mem_cons.1 hnidmem)
      have hle2 : maxZ a t ≤ next_id db.transactions := by
        rcases maxZ_cases t a with h | h
        · rw [h]
          exact hub a (List.mem_cons_self a t)
        · exact hub _ (List.mem_cons_of_mem a h)
      omega
    simp only [createDesafioPath, ← hdb1, hids, htid, hbase, hwrite]

/-- C4 (confirmed).  create_desafio_transaction is idempotent per deposit
index: if a link row for the coerced index n with an integer tx_id
already exists, the call returns that transaction id and leaves the
store untouched; and if no link row for n exists, the call creates
exactly one transaction row and one link row (n, fresh id) and returns
the fresh id, after which any further call for the same n (any date or
amount) returns the same id and changes nothing.  Proven over stores
with distinct coerced link indices, integer-valued link cells and
nonnegative numeric transaction ids. -/
theorem claim_C4_create_desafio_idempotent (date_ : String) (n : ℤ) (amount : ℚ)
    (now : String) (db : DB)
    (hnd : (db.links.map (fun l => toIntD 0 l.n)).Nodup)
    (hlwf : db.links.all (fun l => l.n.isIntCell && l.tx_id.isIntCell) = true)
    (hwf : db.transactions.all (fun r => r.id.nonnegIfNum) = true) :
    (∀ l ∈ db.links, toIntD 0 l.n = n → ∀ t : ℤ, l.tx_id = intCell t →
      create_desafio_transaction date_ n amount now db = some (t, db)) ∧
    ((∀ l ∈ db.links, toIntD 0 l.n ≠ n) →
      ∃ db2 : DB,
        create_desafio_transaction date_ n amount now db =
          some (next_id db.transactions, db2) ∧
        db2.transactions.length = db.transactions.length + 1 ∧
        db2.links = db.links ++ [⟨intCell n, intCell (next_id db.transactions)⟩] ∧
        ∀ date2 amount2 now2, create_desafio_transaction date2 n amount2 now2 db2 =
          some (next_id db.transactions, db2)) := by
  constructor
  · intro l hl hln t htx
    have hemp : db.links.isEmpty = false := by
      cases hdl : db.links
      · rw [hdl] at hl
        simp at hl
      · rfl
    have hnd0 : ((db.links.map
        (fun l' => ({ l' with n := intCell (toIntD 0 l'.n) } : LinkRow))).map
        (fun l' => toIntD 0 l'.n)).Nodup := by
      rw [List.map_map]
      have he : ((fun l' : LinkRow => toIntD 0 l'.n) ∘
          (fun l' : LinkRow => ({ l' with n := intCell (toIntD 0 l'.n) } : LinkRow))) =
          (fun l' : LinkRow => toIntD 0 l'.n) := by
        funext x
        simp [Function.comp, toIntD_intCell]
      rw [he]
      exact hnd
    have hmem0 : ({ n := intCell (toIntD 0 l.n), tx_id := l.tx_id } : LinkRow) ∈
        db.links.map (fun l' => { l' with n := intCell (toIntD 0 l'.n) }) :=
      List.mem_map_of_mem _ hl
    have hfind := find?_key_of_nodup (fun l' : LinkRow => toIntD 0 l'.n) _ hnd0 _ hmem0
    have hkx : toIntD 0
        ({ n := intCell (toIntD 0 l.n), tx_id := l.tx_id } : LinkRow).n = n := by
      show toIntD 0 (intCell (toIntD 0 l.n)) = n
      rw [toIntD_intCell, hln]
    simp only [hkx] at hfind
    refine create_desafio_found date_ n amount now db _ t hemp hfind ?_ ?_
    · show l.tx_id.isNonBlank = true
      rw [htx]
      exact isNonBlank_intCell t
    · show cellIntFloat l.tx_id = some t
      rw [htx]
      exact cellIntFloat_intCell t
  · intro hfresh
    refine ⟨{ add_transaction date_ ("Desafio - Depósito #" ++ toString n) "entrada"
        amount "Desafio" 1 now db with
        links := db.links ++ [⟨intCell n, intCell (next_id db.transactions)⟩] },
      ?_, ?_, rfl, ?_⟩
    · rw [create_desafio_no_link date_ n amount now db hfresh]
      exact createDesafioPath_eq date_ n amount now db hlwf hwf
    · obtain ⟨row, hrow_tx⟩ : ∃ row : TxRow,
          (add_transaction date_ ("Desafio - Depósito #" ++ toString n) "entrada"
            amount "Desafio" 1 now db).transactions = db.transactions ++ [row] :=
        ⟨_, rfl⟩
      show (add_transaction date_ ("Desafio - Depósito #" ++ toString n) "entrada"
          amount "Desafio" 1 now db).transactions.length = db.transactions.length + 1
      rw [hrow_tx, List.length_append]
      rfl
    · intro date2 amount2 now2
      have hemp2 : ((db.links ++
          [⟨intCell n, intCell (next_id db.transactions)⟩] : List LinkRow)).isEmpty =
          false := by
        cases db.links <;> rfl
      have hfalse : ∀ x ∈ db.links,
          ((fun l : LinkRow => toIntD 0 l.n == n) x) = false := by
        intro x hx
        show (toIntD 0 x.n == n) = false
        simpa using hfresh x hx
      have hfind2 : (((db.links ++
          [⟨intCell n, intCell (next_id db.transactions)⟩]) : List LinkRow).map
          (fun l => { l with n := intCell (toIntD 0 l.n) })).find?
          (fun l => toIntD 0 l.n == n) =
          some ⟨intCell n, intCell (next_id db.transactions)⟩ := by
        rw [List.map_append, map_coerce_links_eq_self hlwf]
        have hmapnl : ([⟨intCell n, intCell (next_id db.transactions)⟩] :
            List LinkRow).map (fun l => { l with n := intCell (toIntD 0 l.n) }) =
            [⟨intCell n, intCell (next_id db.transactions)⟩] := by
          simp [toIntD_intCell]
        rw [hmapnl, find?_key_append _ hfalse, List.find?_cons]
        simp [toIntD_intCell]
      exact create_desafio_found date2 n amount2 now2 _
        ⟨intCell n, intCell (next_id db.transactions)⟩ (next_id db.transactions)
        hemp2 hfind2 (isNonBlank_intCell _) (cellIntFloat_intCell _)

/-- Store for the C4 witness: one transaction with id 3 and no links. -/
def c4WitDB : DB :=
  ⟨[⟨Cell.num 3, "2025-01-01", "d", "entrada", Cell.num 10, "c", Cell.num 1, "t"⟩],
    [], [], [], [], []⟩

/-- Witness for C4: on a store with no link for index 2, the creation
clause applies and yields the idempotent second call. -/
theorem claim_C4_create_desafio_idempotent_witness :
    ∃ db2 : DB,
      create_desafio_transaction "2025-03-01" 2 5 "t2" c4WitDB =
        some (next_id c4WitDB.transactions, db2) ∧
      db2.transactions.length = c4WitDB.transactions.length + 1 ∧
      db2.links = c4WitDB.links ++
        [⟨intCell 2, intCell (next_id c4WitDB.transactions)⟩] ∧
      ∀ date2 amount2 now2, create_desafio_transaction date2 2 amount2 now2 db2 =
        some (next_id c4WitDB.transactions, db2) :=
  (claim_C4_create_desafio_idempotent "2025-03-01" 2 5 "t2" c4WitDB (by decide)
    (by decide) (by decide)).2 (by intro l hl; simp [c4WitDB] at hl)

end Financas
